import Mathlib

/-! A verification development for `shell/shell.c`.

The shell is embedded shallowly.

* A C string is the list of its characters before the terminating NUL; a token is a `String`.
* A `char*` array (`tokens[]`, `argv[]`) is a buffer `List (Option String)`: slot `i` holds a
  pointer to a string or `none` for `NULL`.  A buffer that the C code declares without
  initialising it (`char* argv[MAX_TOKENS]` on the stack) is a parameter of the model: whatever
  the slots held before.  A NULL-terminated array that is only read is passed as the list of the
  strings before its first `NULL`.
* The operating system is an oracle `Env` (which calls succeed, what `fork` returns) together
  with the per-process state `World`: the descriptor table and the trace of calls made so far.
  `fork` is followed in the process in which it returns: return value `0` is the child,
  a positive value the parent.
* A process leaves a piece of code by running to its end, by terminating with a status, by
  having its image replaced, or by being killed by a signal: `execvp` with a `NULL` file
  name ends in the last way.
-/

namespace Shell

/-! ## Constants -/

/-- The macro `MAX_TOKENS` of shell.c. -/
def MAX_TOKENS : Nat := 256

/-- Descriptor number `STDIN_FILENO`. -/
def STDIN_FILENO : Nat := 0

/-- Descriptor number `STDOUT_FILENO`. -/
def STDOUT_FILENO : Nat := 1

/-! ## Arrays of C strings -/

/-- An array of `char*`: `none` is `NULL`. -/
abbrev Buf := List (Option String)

/-- Read slot `i` of a buffer (`NULL` past its end, where C would read out of bounds). -/
def Buf.at (b : Buf) (i : Nat) : Option String := (b[i]?).join

/-- The strings of a buffer before its first `NULL`: what a reader of a NULL-terminated
array sees. -/
def cstrs : Buf → List String
  | [] => []
  | none :: _ => []
  | some s :: rest => s :: cstrs rest

/-! ## Tokenizer (`tokenize`, lines 38-46) -/

/-- The delimiter set `" \t\n"` handed to `strtok_r`. -/
def isDelim (c : Char) : Bool := c == ' ' || c == '\t' || c == '\n'

/-- One call of `strtok_r(s, " \t\n", &saveptr)` on the characters at the scan position:
skip leading delimiters; at the end of the string return `NULL`; otherwise the token runs up
to the next delimiter, which is overwritten by NUL, and `saveptr` is left just past it
(or at the end of the string).  The result is the token and the characters at `saveptr`. -/
def strtok_r (s : List Char) : Option (List Char × List Char) :=
  match s.dropWhile isDelim with
  | [] => none
  | c :: cs =>
    some ((c :: cs).takeWhile (fun x => !isDelim x),
          ((c :: cs).dropWhile (fun x => !isDelim x)).drop 1)

/-- The `for` loop of `tokenize`.  `slots` is `max_tokens - 1 - count`, so that the loop
condition `count < max_tokens - 1` is `slots ≠ 0`; `p` is the current result of `strtok_r`. -/
def tokenize_loop : Nat → Option (List Char × List Char) → Nat → Buf → Buf × Nat
  | _, none, count, tokens => (tokens, count)
  | 0, some _, count, tokens => (tokens, count)
  | slots + 1, some (p, saveptr), count, tokens =>
    tokenize_loop slots (strtok_r saveptr) (count + 1) (tokens.set count (some (String.mk p)))

/-- The function `tokenize(line, tokens, max_tokens)`: the buffer `tokens` after the call
and the returned count. -/
def tokenize (line : List Char) (tokens : Buf) (max_tokens : Int) : Buf × Int :=
  let r := tokenize_loop (max_tokens - 1).toNat (strtok_r line) 0 tokens
  (r.1.set r.2 none, (r.2 : Int))

/-! ## Command descriptor builder (`parse_redirs`, lines 47-68) -/

/-- What `parse_redirs` leaves behind: the `argv` buffer, the three out-parameters, and the
lines it wrote to `stderr`. -/
structure Redirs where
  argv : Buf
  in_file : Option String
  out_file : Option String
  append : Int
  diag : List String
  deriving DecidableEq, Repr

/-- The value of `tokens[i][1] == '>'`: the second character of the token (NUL when the token
has one character). -/
def secondIsGt (t : String) : Int :=
  if t.data.getD 1 (Char.ofNat 0) = '>' then 1 else 0

/-- The `for` loop of `parse_redirs` from token index `i` on: `toks` are `tokens[i..]` up to
the terminating `NULL`, `ai` the current argument index.  A redirection operator without a
following token writes the diagnostic and returns at once, before `argv[ai] = NULL`. -/
def parse_loop : List String → Nat → Redirs → Redirs
  | [], ai, r => { r with argv := r.argv.set ai none }
  | t :: rest, ai, r =>
    if t = ">" ∨ t = ">>" then
      match rest with
      | [] =>
        { r with
          append := secondIsGt t
          diag := r.diag ++ ["syntax error: expected filename after '" ++ t ++ "'\n"] }
      | f :: rest2 =>
        parse_loop rest2 ai { r with append := secondIsGt t, out_file := some f }
    else if t = "<" then
      match rest with
      | [] => { r with diag := r.diag ++ ["syntax error: expected filename after '<'\n"] }
      | f :: rest2 => parse_loop rest2 ai { r with in_file := some f }
    else if t = "&" then
      parse_loop rest ai r
    else
      parse_loop rest (ai + 1) { r with argv := r.argv.set ai (some t) }

/-- The function `parse_redirs(tokens, argv, &in_file, &out_file, &append)`; `argv` is the
caller's buffer as it was before the call. -/
def parse_redirs (tokens : List String) (argv : Buf) : Redirs :=
  parse_loop tokens 0
    { argv := argv, in_file := none, out_file := none, append := 0, diag := [] }

/-! ## Background detection (`is_background`, lines 70-74) -/

/-- The function `is_background(tokens)`: the returned flag and the token array afterwards
(the trailing `&` overwritten by `NULL`). -/
def is_background (tokens : List String) : Int × List String :=
  if tokens.length > 0 ∧ tokens.getLast? = some "&" then (1, tokens.dropLast) else (0, tokens)


/-! ## The operating system as seen by one process -/

/-- The `open` flags used by shell.c. -/
inductive OFlag
  | O_RDONLY | O_WRONLY | O_CREAT | O_APPEND | O_TRUNC
  deriving DecidableEq, Repr

/-- What an open descriptor refers to: a stream the process started with, an end of the
`k`-th pipe created, or a file opened by path with the given flags. -/
inductive FileObj
  | inherited (fd : Nat)
  | pipeRead (k : Nat)
  | pipeWrite (k : Nat)
  | file (path : String) (flags : List OFlag)
  deriving DecidableEq, Repr

/-- The descriptor table of a process: slot `fd` is `none` when `fd` is closed. -/
abbrev FdTable := List (Option FileObj)

/-- The object descriptor `fd` refers to, `none` when it is closed. -/
def FdTable.obj (t : FdTable) (fd : Nat) : Option FileObj := (t[fd]?).join

/-- Make descriptor `fd` refer to `o` (or close it, for `none`). -/
def FdTable.put (t : FdTable) (fd : Nat) (o : Option FileObj) : FdTable :=
  if fd < t.length then t.set fd o else t ++ List.replicate (fd - t.length) none ++ [o]

/-- The lowest-numbered closed descriptor: the one POSIX `open` and `pipe` hand out. -/
def FdTable.lowestFree : FdTable → Nat
  | [] => 0
  | none :: _ => 0
  | some _ :: t => FdTable.lowestFree t + 1

/-- The calls a process makes, in order, with their results (`ret < 0` is failure). -/
inductive Event
  | write_stderr (s : String)
  | perror (tag : String)
  | write_stdout (s : String)
  | pipe (ret : Int)
  | fork (ret : Int)
  | signal_sigint_dfl
  | open_call (path : String) (flags : List OFlag) (mode : Option Nat) (ret : Int)
  | dup2 (oldfd newfd : Nat) (ret : Int)
  | close (fd : Nat)
  | execvp (file : Option String) (args : List String)
  | chdir (path : String) (ret : Int)
  | waitpid (pid : Int)
  | exit_call (status : Int)
  deriving DecidableEq, Repr

/-- The answers of the operating system that the program cannot determine. -/
structure Env where
  open_ok : String → List OFlag → Bool
  dup2_ok : Nat → Nat → Bool
  execvp_ok : Option String → List String → Bool
  pipe_ok : Bool
  fork_ret : Nat → Int
  home : Option String
  chdir_ok : String → Bool

/-- The state of the process running the code: its descriptor table, how many pipes and
forks it has seen, and the calls made so far. -/
structure World where
  fds : FdTable
  npipes : Nat
  nforks : Nat
  trace : List Event
  deriving DecidableEq, Repr

/-- How control leaves a piece of code: it runs to its end (`returned`), the process
terminates with a status, the process image is replaced by `execvp`, or the process is
killed by a signal. -/
inductive Outcome
  | returned
  | exited (status : Int)
  | replaced
  | killed (signal : Nat)
  deriving DecidableEq, Repr

/-- The number of the signal `SIGSEGV`. -/
def SIGSEGV : Nat := 11

/-- How a call of `execvp` ends: the image is replaced, the call returns `-1`, or the
process is killed inside the call. -/
inductive ExecResult
  | replaced
  | failed
  | crashed
  deriving DecidableEq, Repr

/-- Record one call in the trace. -/
def World.log (w : World) (e : Event) : World := { w with trace := w.trace ++ [e] }

/-- Record several calls in the trace. -/
def World.logs (w : World) (es : List Event) : World := { w with trace := w.trace ++ es }

/-- Sequencing of C statements: the continuation runs only when control reaches it. -/
def andThen (r : World × Outcome) (k : World → World × Outcome) : World × Outcome :=
  match r.2 with
  | .returned => k r.1
  | _ => r

/-- The call `open(path, flags[, mode])`: on success the lowest closed descriptor. -/
def sys_open (env : Env) (w : World) (path : String) (flags : List OFlag)
    (mode : Option Nat) : Option Nat × World :=
  if env.open_ok path flags then
    let fd := w.fds.lowestFree
    (some fd, { w with fds := w.fds.put fd (some (.file path flags)),
                       trace := w.trace ++ [.open_call path flags mode fd] })
  else (none, w.log (.open_call path flags mode (-1)))

/-- The call `dup2(oldfd, newfd)`: fails when `oldfd` is closed or the system refuses. -/
def sys_dup2 (env : Env) (w : World) (oldfd newfd : Nat) : Bool × World :=
  match w.fds.obj oldfd with
  | some o =>
    if env.dup2_ok oldfd newfd then
      (true, { w with fds := w.fds.put newfd (some o),
                      trace := w.trace ++ [.dup2 oldfd newfd newfd] })
    else (false, w.log (.dup2 oldfd newfd (-1)))
  | none => (false, w.log (.dup2 oldfd newfd (-1)))

/-- The call `close(fd)`. -/
def sys_close (w : World) (fd : Nat) : World :=
  { w with fds := w.fds.set fd none, trace := w.trace ++ [.close fd] }

/-- The call `pipe(pipefd)`: on success `(pipefd[0], pipefd[1])`, the two lowest closed
descriptors, referring to the read and the write end of a new pipe. -/
def sys_pipe (env : Env) (w : World) : Option (Nat × Nat) × World :=
  if env.pipe_ok then
    let rd := w.fds.lowestFree
    let t1 := w.fds.put rd (some (.pipeRead w.npipes))
    let wr := t1.lowestFree
    (some (rd, wr), { w with fds := t1.put wr (some (.pipeWrite w.npipes)),
                             npipes := w.npipes + 1, trace := w.trace ++ [.pipe 0] })
  else (none, w.log (.pipe (-1)))

/-- The call `fork()`, followed in the process in which it returns the value given by
the oracle: negative for failure, `0` in the child, the child's pid in the parent. -/
def sys_fork (env : Env) (w : World) : Int × World :=
  let r := env.fork_ret w.nforks
  (r, { w with nforks := w.nforks + 1, trace := w.trace ++ [.fork r] })

/-- The call `execvp(file, argv)`.  With `file = NULL` the library reads through the null
pointer before anything else and the process is killed by `SIGSEGV`: the call neither
replaces the image nor returns.  Otherwise the oracle says whether the image is replaced or
the call returns `-1`. -/
def sys_execvp (env : Env) (file : Option String) (args : List String) : ExecResult :=
  match file with
  | none => .crashed
  | some f => if env.execvp_ok (some f) args then .replaced else .failed

/-! ## Builtin `cd` (lines 77-82) -/

/-- The function `builtin_cd(path)`: its return value and the world afterwards. -/
def builtin_cd (env : Env) (w : World) (path : Option String) : Int × World :=
  let path1 := match path with
    | some p => some p
    | none => env.home
  let path2 := match path1 with
    | some p => p
    | none => "/"
  if env.chdir_ok path2 then (0, w.log (.chdir path2 0))
  else (-1, (w.log (.chdir path2 (-1))).log (.perror "cd"))

/-! ## Process launcher (`exec_with_redirs`, lines 84-101) -/

/-- The flags of the output redirection: `O_WRONLY | O_CREAT | (append ? O_APPEND : O_TRUNC)`. -/
def out_flags (append : Int) : List OFlag :=
  [.O_WRONLY, .O_CREAT, if append ≠ 0 then .O_APPEND else .O_TRUNC]

/-- Lines 85-90 of `exec_with_redirs`: the block `if (in_file) { ... }`. -/
def redirect_stdin (env : Env) (w : World) (in_file : Option String) : World × Outcome :=
  match in_file with
  | none => (w, .returned)
  | some p =>
    match sys_open env w p [.O_RDONLY] none with
    | (none, w1) => ((w1.log (.perror "open <")).log (.exit_call 1), .exited 1)
    | (some fd, w1) =>
      match sys_dup2 env w1 fd STDIN_FILENO with
      | (false, w2) => ((w2.log (.perror "dup2 <")).log (.exit_call 1), .exited 1)
      | (true, w2) => (sys_close w2 fd, .returned)

/-- Lines 91-97 of `exec_with_redirs`: the block `if (out_file) { ... }`. -/
def redirect_stdout (env : Env) (w : World) (out_file : Option String) (append : Int) :
    World × Outcome :=
  match out_file with
  | none => (w, .returned)
  | some p =>
    match sys_open env w p (out_flags append) (some 0o644) with
    | (none, w1) => ((w1.log (.perror "open >")).log (.exit_call 1), .exited 1)
    | (some fd, w1) =>
      match sys_dup2 env w1 fd STDOUT_FILENO with
      | (false, w2) => ((w2.log (.perror "dup2 >")).log (.exit_call 1), .exited 1)
      | (true, w2) => (sys_close w2 fd, .returned)

/-- Lines 98-100 of `exec_with_redirs`: `execvp(argv[0], argv)`, then, when the call
returns, `perror("execvp")` and `_exit(127)`. -/
def exec_tail (env : Env) (w : World) (argv : Buf) : World × Outcome :=
  let w1 := w.log (.execvp (argv.at 0) (cstrs argv))
  match sys_execvp env (argv.at 0) (cstrs argv) with
  | .replaced => (w1, .replaced)
  | .crashed => (w1, .killed SIGSEGV)
  | .failed => ((w1.log (.perror "execvp")).log (.exit_call 127), .exited 127)

/-- The function `exec_with_redirs(argv, in_file, out_file, append)`: the two redirection
blocks, then `execvp(argv[0], argv)`, `perror` and `_exit(127)`. -/
def exec_with_redirs (env : Env) (w : World) (argv : Buf) (in_file out_file : Option String)
    (append : Int) : World × Outcome :=
  andThen (redirect_stdin env w in_file) fun w =>
  andThen (redirect_stdout env w out_file append) fun w =>
  exec_tail env w argv

/-! ## Single-command orchestrator (`run_single`, lines 104-129) -/

/-- The function `run_single(tokens)`; `argv0` is the uninitialised stack array `argv`. -/
def run_single (env : Env) (w : World) (tokens : List String) (argv0 : Buf) :
    World × Outcome :=
  let bg := (is_background tokens).1
  let tokens1 := (is_background tokens).2
  let r := parse_redirs tokens1 argv0
  let w := w.logs (r.diag.map .write_stderr)
  match r.argv.at 0 with
  | none => (w, .returned)
  | some a0 =>
    if a0 = "exit" then (w.log (.exit_call 0), .exited 0)
    else if a0 = "cd" then ((builtin_cd env w (r.argv.at 1)).2, .returned)
    else
      let pid := (sys_fork env w).1
      let w := (sys_fork env w).2
      if pid < 0 then (w.log (.perror "fork"), .returned)
      else
        andThen
          (if pid = 0 then
             exec_with_redirs env (w.log .signal_sigint_dfl) r.argv r.in_file r.out_file r.append
           else if bg = 0 then (w.log (.waitpid pid), .returned)
           else (w.log (.write_stdout ("[bg] pid=" ++ toString pid ++ "\n")), .returned))
          fun w => (w, .returned)

/-! ## Pipeline orchestrator (`run_pipeline`, lines 131-176) -/

/-- The function `run_pipeline(left_tokens, right_tokens)`; `left_argv0` and `right_argv0`
are the uninitialised stack arrays `left_argv` and `right_argv`. -/
def run_pipeline (env : Env) (w : World) (left_tokens right_tokens : List String)
    (left_argv0 right_argv0 : Buf) : World × Outcome :=
  let L := parse_redirs left_tokens left_argv0
  let w := w.logs (L.diag.map .write_stderr)
  let R := parse_redirs right_tokens right_argv0
  let w := w.logs (R.diag.map .write_stderr)
  let bg := (is_background right_tokens).1
  match sys_pipe env w with
  | (none, w) => (w.log (.perror "pipe"), .returned)
  | (some (rd, wr), w) =>
    let p1 := (sys_fork env w).1
    let w := (sys_fork env w).2
    if p1 < 0 then (w.log (.perror "fork"), .returned)
    else
      andThen
        (if p1 = 0 then
           let w := sys_close (w.log .signal_sigint_dfl) rd
           match sys_dup2 env w wr STDOUT_FILENO with
           | (false, w) => ((w.log (.perror "dup2 pipe left")).log (.exit_call 1), .exited 1)
           | (true, w) =>
             exec_with_redirs env (sys_close w wr) L.argv L.in_file L.out_file L.append
         else (w, .returned))
        fun w =>
      let p2 := (sys_fork env w).1
      let w := (sys_fork env w).2
      if p2 < 0 then (w.log (.perror "fork"), .returned)
      else
        andThen
          (if p2 = 0 then
             let w := sys_close (w.log .signal_sigint_dfl) wr
             match sys_dup2 env w rd STDIN_FILENO with
             | (false, w) => ((w.log (.perror "dup2 pipe right")).log (.exit_call 1), .exited 1)
             | (true, w) =>
               exec_with_redirs env (sys_close w rd) R.argv R.in_file R.out_file R.append
           else (w, .returned))
          fun w =>
        let w := sys_close (sys_close w rd) wr
        if bg = 0 then ((w.log (.waitpid p1)).log (.waitpid p2), .returned)
        else
          (w.log (.write_stdout
            ("[bg] p1=" ++ toString p1 ++ " p2=" ++ toString p2 ++ "\n")), .returned)

/-! ## Specification-side definitions -/

/-- A redirection operator token: `>`, `>>` or `<`. -/
def isRedirOp (t : String) : Bool := t == ">" || t == ">>" || t == "<"

/-- An operator token: a redirection operator or the background marker `&`. -/
def isOperator (t : String) : Bool := isRedirOp t || t == "&"

/-- Whether the token at position `i` is consumed as a redirection path when the scan of
`toks` starts with position `0` consumed (`c = true`) or not: position `i + 1` is consumed
exactly when position `i` holds a redirection operator that was not itself consumed. -/
def consumedFrom (c : Bool) (toks : List String) : Nat → Bool
  | 0 => c
  | i + 1 => isRedirOp (toks.getD i "") && !consumedFrom c toks i

/-- Whether the token at position `i` is consumed as a redirection path. -/
def consumedAsPath (toks : List String) (i : Nat) : Bool := consumedFrom false toks i

/-- The tokens that are neither an operator token nor consumed as a redirection path, in
their original order; `c` says whether position `0` is consumed. -/
def expectedFrom (c : Bool) (toks : List String) : List String :=
  ((List.range toks.length).filter
    (fun i => !isOperator (toks.getD i "") && !consumedFrom c toks i)).map
    (fun i => toks.getD i "")

/-- The argument vector the specification describes: the tokens, in order, that are neither
an operator token nor the token consumed as a redirection path. -/
def expectedArgv (toks : List String) : List String := expectedFrom false toks

/-- Every redirection operator that is scanned (not itself consumed as a path) is followed
by a token; `c` says whether position `0` is consumed. -/
def FollowedFrom (c : Bool) (toks : List String) : Prop :=
  ∀ i, i < toks.length → isRedirOp (toks.getD i "") = true → consumedFrom c toks i = false →
    i + 1 < toks.length

/-- The maximal runs of characters other than space, tab and newline, left to right: the
pieces between delimiters, the empty ones left out. -/
def runs (line : List Char) : List (List Char) :=
  (line.splitOnP isDelim).filter (fun r => !r.isEmpty)

/-- The arguments `parse_loop` stores when it scans `toks` to the end: `c` says whether
the first token is skipped as a redirection path. -/
def argsFrom : Bool → List String → List String
  | _, [] => []
  | true, _ :: rest => argsFrom false rest
  | false, t :: rest =>
    if isRedirOp t then argsFrom true rest
    else if t = "&" then argsFrom false rest
    else t :: argsFrom false rest

/-- Whether `parse_loop` scans `toks` to the end without a syntax error. -/
def okFrom : Bool → List String → Bool
  | _, [] => true
  | true, _ :: rest => okFrom false rest
  | false, t :: rest =>
    if isRedirOp t then !rest.isEmpty && okFrom true rest else okFrom false rest

/-- The calls made between the states `w` and `w1` of one process. -/
def newEvents (w w1 : World) : List Event := w1.trace.drop w.trace.length

/-- The calls that create or wait for a process, open or rewire a descriptor, or change the
working directory. -/
def Event.isEffect : Event → Bool
  | .pipe _ => true
  | .fork _ => true
  | .open_call _ _ _ _ => true
  | .dup2 _ _ _ => true
  | .close _ => true
  | .execvp _ _ => true
  | .chdir _ _ => true
  | .waitpid _ => true
  | _ => false

/-- A sample environment: every call succeeds except `execvp`, and the `n`-th `fork`
returns pid `100 + n` (the process followed is the parent). -/
def demoEnv : Env :=
  { open_ok := fun _ _ => true, dup2_ok := fun _ _ => true, execvp_ok := fun _ _ => false,
    pipe_ok := true, fork_ret := fun n => 100 + (n : Int), home := none,
    chdir_ok := fun _ => true }

/-- A sample initial state: the three standard streams open, nothing traced. -/
def demoWorld : World :=
  { fds := [some (.inherited 0), some (.inherited 1), some (.inherited 2)],
    npipes := 0, nforks := 0, trace := [] }

/-- The sample environment as seen by the left child of a pipeline or the child of a
single command: `fork` returns `0`. -/
def leftChildEnv : Env := { demoEnv with fork_ret := fun _ => 0 }

/-- The sample environment as seen by the right child of a pipeline: the first `fork`
returns the left child's pid, the second `0`. -/
def rightChildEnv : Env := { demoEnv with fork_ret := fun n => if n = 0 then 100 else 0 }

/-- The sample environment with process creation failing: `fork` returns `-1`. -/
def forkFailEnv : Env := { demoEnv with fork_ret := fun _ => -1 }

/-- The sample environment in which no file can be opened. -/
def openFailEnv : Env := { demoEnv with open_ok := fun _ _ => false }

/-- A sample uninitialised `argv` array of `MAX_TOKENS` slots, here all `NULL`. -/
def demoArgv : Buf := List.replicate MAX_TOKENS none

/-! ## Buffers -/

/-- Store the strings `ss` in consecutive slots of `b` from slot `i` on. -/
def Buf.writeFrom (b : Buf) (i : Nat) : List String → Buf
  | [] => b
  | s :: ss => Buf.writeFrom (b.set i (some s)) (i + 1) ss

theorem writeFrom_eq (ss : List String) : ∀ (b : Buf) (i : Nat), i + ss.length ≤ b.length →
    Buf.writeFrom b i ss = b.take i ++ ss.map some ++ b.drop (i + ss.length) := by
  induction ss with
  | nil => intro b i _; simp [Buf.writeFrom]
  | cons s ss ih =>
    intro b i h
    simp only [List.length_cons] at h
    have hi : i < b.length := by omega
    rw [Buf.writeFrom, ih _ _ (by simp; omega)]
    have e1 : (b.set i (some s)).take (i + 1) = b.take i ++ [some s] := by
      rw [List.set_eq_take_append_cons_drop, if_pos hi,
        List.take_append_eq_append_take]
      simp [List.take_take, Nat.min_eq_left (Nat.le_of_lt hi), List.length_take]
    have e2 : (b.set i (some s)).drop (i + 1 + ss.length) = b.drop (i + (ss.length + 1)) := by
      rw [List.drop_set_of_lt _ _ (by omega)]
      congr 1; omega
    rw [e1, e2]
    simp [List.length_cons]

theorem cstrs_map_some_append (ss : List String) (rest : Buf) :
    cstrs (ss.map some ++ none :: rest) = ss := by
  induction ss with
  | nil => rfl
  | cons s ss ih => simp [cstrs, ih]

/-- The buffer after storing `ss` from slot `0` and `NULL` right after. -/
theorem writeFrom_zero_terminated (ss : List String) (b : Buf) (h : ss.length < b.length) :
    (Buf.writeFrom b 0 ss).set ss.length none =
      ss.map some ++ none :: b.drop (ss.length + 1) := by
  rw [writeFrom_eq ss b 0 (by omega)]
  simp only [List.take_zero, List.nil_append, Nat.zero_add]
  rw [List.set_eq_take_append_cons_drop]
  have hl : ss.length < (ss.map some ++ b.drop ss.length).length := by
    simp [List.length_append, List.length_drop]; omega
  rw [if_pos hl]
  have t1 : (ss.map some ++ b.drop ss.length).take ss.length = ss.map some := by
    rw [List.take_append_eq_append_take]; simp
  have t2 : (ss.map some ++ b.drop ss.length).drop (ss.length + 1) = b.drop (ss.length + 1) := by
    rw [List.drop_append_eq_append_drop]
    simp [List.drop_drop]
  rw [t1, t2]

theorem at_map_some_append_lt (ss : List String) (rest : Buf) (j : Nat) (h : j < ss.length) :
    Buf.at (ss.map some ++ rest) j = some (ss.getD j "") := by
  unfold Buf.at
  rw [List.getElem?_append_left (by simpa using h)]
  simp [List.getElem?_map, List.getElem?_eq_getElem h, List.getD_eq_getElem _ _ h]

theorem at_map_some_append_len (ss : List String) (rest : Buf) :
    Buf.at (ss.map some ++ none :: rest) ss.length = none := by
  unfold Buf.at
  rw [List.getElem?_append_right (by simp)]
  simp

/-! ## The descriptor builder scans to the end exactly on well-formed input -/

theorem isRedirOp_iff (t : String) : isRedirOp t = true ↔ (t = ">" ∨ t = ">>") ∨ t = "<" := by
  simp [isRedirOp, or_assoc]

theorem consumedFrom_cons (c : Bool) (t : String) (rest : List String) (i : Nat) :
    consumedFrom c (t :: rest) (i + 1) = consumedFrom (isRedirOp t && !c) rest i := by
  induction i with
  | zero => simp [consumedFrom]
  | succ i ih => rw [consumedFrom, ih, consumedFrom]; simp

theorem expectedFrom_cons (c : Bool) (t : String) (rest : List String) :
    expectedFrom c (t :: rest) =
      (if !isOperator t && !c then [t] else []) ++ expectedFrom (isRedirOp t && !c) rest := by
  unfold expectedFrom
  have hf : ((fun i => !isOperator ((t :: rest).getD i "") && !consumedFrom c (t :: rest) i)
      ∘ Nat.succ) = fun i => !isOperator (rest.getD i "") &&
        !consumedFrom (isRedirOp t && !c) rest i := by
    funext i
    simp only [Function.comp, Nat.succ_eq_add_one, List.getD_cons_succ, consumedFrom_cons]
  have hg : ((fun i => (t :: rest).getD i "") ∘ Nat.succ) = fun i => rest.getD i "" := by
    funext i
    simp only [Function.comp, Nat.succ_eq_add_one, List.getD_cons_succ]
  rw [List.length_cons, List.range_succ_eq_map, List.filter_cons, List.filter_map, hf]
  simp only [consumedFrom, List.getD_cons_zero]
  by_cases h : (!isOperator t && !c) = true
  · rw [if_pos h, if_pos h, List.map_cons, List.map_map, hg]
    simp
  · rw [if_neg h, if_neg h, List.map_map, hg]
    simp

theorem expectedFrom_eq_argsFrom (toks : List String) :
    ∀ c, expectedFrom c toks = argsFrom c toks := by
  induction toks with
  | nil => intro c; cases c <;> rfl
  | cons t rest ih =>
    intro c
    rw [expectedFrom_cons, ih]
    cases c with
    | true => simp [argsFrom]
    | false =>
      by_cases h1 : isRedirOp t = true
      · simp [argsFrom, h1, isOperator]
      · by_cases h2 : t = "&"
        · subst h2
          have hr : isRedirOp "&" = false := by decide
          simp [argsFrom, hr, isOperator]
        · simp [argsFrom, h1, h2, isOperator]

theorem followedFrom_cons (c : Bool) (t : String) (rest : List String) :
    FollowedFrom c (t :: rest) ↔
      ((isRedirOp t = true → c = false → rest ≠ []) ∧
        FollowedFrom (isRedirOp t && !c) rest) := by
  constructor
  · intro h
    constructor
    · intro h1 h2
      have := h 0 (by simp) (by simpa using h1) (by simpa [consumedFrom] using h2)
      intro hr
      simp [hr] at this
    · intro i hi h1 h2
      have := h (i + 1) (by simpa using hi) (by simpa using h1)
        (by rw [consumedFrom_cons]; exact h2)
      simpa using this
  · rintro ⟨h0, hrest⟩ i hi h1 h2
    cases i with
    | zero =>
      have := h0 (by simpa using h1) (by simpa [consumedFrom] using h2)
      have : 0 < rest.length := List.length_pos.mpr this
      simp; omega
    | succ i =>
      have := hrest i (by simpa using hi) (by simpa using h1)
        (by rw [consumedFrom_cons] at h2; exact h2)
      simpa using this

theorem followedFrom_iff_okFrom (toks : List String) :
    ∀ c, FollowedFrom c toks ↔ okFrom c toks = true := by
  induction toks with
  | nil =>
    intro c
    constructor
    · intro _; cases c <;> rfl
    · intro _ i hi; simp at hi
  | cons t rest ih =>
    intro c
    rw [followedFrom_cons, ih]
    cases c with
    | true => simp [okFrom]
    | false =>
      by_cases h1 : isRedirOp t = true
      · simp [okFrom, h1, List.isEmpty_iff]
      · simp [okFrom, h1]

/-- On input that scans to the end, `parse_loop` stores the arguments from slot `ai` on,
writes `NULL` right after them and reports nothing. -/
theorem parse_loop_ok (toks : List String) (ai : Nat) (r : Redirs) :
    okFrom false toks = true →
      (parse_loop toks ai r).argv =
          (Buf.writeFrom r.argv ai (argsFrom false toks)).set
            (ai + (argsFrom false toks).length) none ∧
        (parse_loop toks ai r).diag = r.diag := by
  induction toks, ai, r using parse_loop.induct with
  | case1 ai r => intro _; simp [parse_loop, argsFrom, Buf.writeFrom]
  | case2 t ai r ht =>
    intro h
    have : isRedirOp t = true := (isRedirOp_iff t).mpr (Or.inl ht)
    simp [okFrom, this] at h
  | case3 t ai r ht f rest2 ih =>
    intro h
    have hr : isRedirOp t = true := (isRedirOp_iff t).mpr (Or.inl ht)
    have h2 : okFrom false rest2 = true := by simpa [okFrom, hr] using h
    have := ih h2
    simp only [parse_loop, if_pos ht, argsFrom, hr, if_true]
    exact this
  | case4 ai r _ =>
    intro h
    have : isRedirOp "<" = true := by decide
    simp [okFrom, this] at h
  | case5 ai r f rest2 hn ih =>
    intro h
    have hr : isRedirOp "<" = true := by decide
    have h2 : okFrom false rest2 = true := by simpa [okFrom, hr] using h
    have := ih h2
    simp only [parse_loop, if_neg hn, argsFrom, hr, if_true]
    exact this
  | case6 rest ai r hn hn2 ih =>
    intro h
    have hr : isRedirOp "&" = false := by decide
    have h2 : okFrom false rest = true := by simpa [okFrom, hr] using h
    have e : parse_loop ("&" :: rest) ai r = parse_loop rest ai r := by
      rw [parse_loop.eq_def]; simp
    have e2 : argsFrom false ("&" :: rest) = argsFrom false rest := by
      simp [argsFrom, hr]
    rw [e, e2]
    exact ih h2
  | case7 t rest ai r h1 h2 h3 ih =>
    intro h
    have hr : isRedirOp t = false := by
      rw [Bool.eq_false_iff]; intro hc
      rcases (isRedirOp_iff t).mp hc with hc | hc
      · exact h1 hc
      · exact h2 hc
    have hok : okFrom false rest = true := by simpa [okFrom, hr] using h
    have e : parse_loop (t :: rest) ai r =
        parse_loop rest (ai + 1) { r with argv := r.argv.set ai (some t) } := by
      have h1a : ¬ t = ">" := fun hc => h1 (Or.inl hc)
      have h1b : ¬ t = ">>" := fun hc => h1 (Or.inr hc)
      rw [parse_loop.eq_def]; simp [h1a, h1b, h2, h3]
    have e2 : argsFrom false (t :: rest) = t :: argsFrom false rest := by
      simp [argsFrom, hr, h3]
    have := ih hok
    dsimp only at this
    rw [e, e2, this.1, this.2, Buf.writeFrom, List.length_cons]
    constructor
    · congr 1; omega
    · trivial

theorem argsFrom_not_operator (toks : List String) :
    ∀ c, ∀ a ∈ argsFrom c toks, isOperator a = false := by
  induction toks with
  | nil => intro c a h; cases c <;> simp [argsFrom] at h
  | cons t rest ih =>
    intro c a h
    cases c with
    | true => exact ih false a (by simpa [argsFrom] using h)
    | false =>
      by_cases h1 : isRedirOp t = true
      · exact ih true a (by simpa [argsFrom, h1] using h)
      · by_cases h2 : t = "&"
        · exact ih false a (by simpa [argsFrom, h1, h2] using h)
        · simp only [argsFrom, h1, h2, if_false, Bool.false_eq_true, List.mem_cons] at h
          rcases h with h | h
          · subst h; simp [isOperator, h1, h2]
          · exact ih false a h

theorem argsFrom_length_le (toks : List String) :
    ∀ c, (argsFrom c toks).length ≤ toks.length := by
  induction toks with
  | nil => intro c; cases c <;> simp [argsFrom]
  | cons t rest ih =>
    intro c
    cases c with
    | true => have := ih false; simp [argsFrom]; omega
    | false =>
      have a1 := ih false
      have a2 := ih true
      simp only [argsFrom]
      split
      · simp; omega
      · split
        · simp; omega
        · simp; omega

/-! ## The tokenizer returns the leading runs -/

theorem splitOnP_takeWhile (s : List Char) :
    s.splitOnP isDelim = s.takeWhile (fun x => !isDelim x) ::
      (match s.dropWhile (fun x => !isDelim x) with
       | [] => []
       | _ :: rest => rest.splitOnP isDelim) := by
  induction s with
  | nil => simp [List.splitOnP_nil]
  | cons c cs ih =>
    rw [List.splitOnP_cons]
    by_cases h : isDelim c = true
    · simp [h, List.takeWhile_cons, List.dropWhile_cons]
    · simp only [h, if_false, Bool.false_eq_true]
      rw [ih]
      simp [h, List.takeWhile_cons, List.dropWhile_cons, List.modifyHead]

theorem runs_cons_delim (c : Char) (cs : List Char) (h : isDelim c = true) :
    runs (c :: cs) = runs cs := by
  simp [runs, List.splitOnP_cons, h]

theorem strtok_r_cons_delim (c : Char) (cs : List Char) (h : isDelim c = true) :
    strtok_r (c :: cs) = strtok_r cs := by
  simp [strtok_r, List.dropWhile_cons, h]

theorem strtok_r_cons_char (c : Char) (cs : List Char) (h : isDelim c = false) :
    strtok_r (c :: cs) = some ((c :: cs).takeWhile (fun x => !isDelim x),
      ((c :: cs).dropWhile (fun x => !isDelim x)).drop 1) := by
  simp [strtok_r, List.dropWhile_cons, h]

theorem runs_cons_char (c : Char) (cs : List Char) (h : isDelim c = false) :
    runs (c :: cs) = (c :: cs).takeWhile (fun x => !isDelim x) ::
      runs (((c :: cs).dropWhile (fun x => !isDelim x)).drop 1) := by
  have hne : ((c :: cs).takeWhile (fun x => !isDelim x)).isEmpty = false := by
    simp [List.takeWhile_cons, h]
  rw [runs, splitOnP_takeWhile, List.filter_cons]
  simp only [hne, Bool.not_false, if_true]
  congr 1
  cases hd : (c :: cs).dropWhile (fun x => !isDelim x) with
  | nil => simp [runs, List.splitOnP_nil]
  | cons d rest => simp [runs]

/-- Each call of `strtok_r` yields the next run and leaves the scan position before the
remaining runs; it returns `NULL` exactly when no run is left. -/
theorem strtok_r_runs (s : List Char) :
    (strtok_r s = none → runs s = []) ∧
      (∀ tok rest, strtok_r s = some (tok, rest) → runs s = tok :: runs rest) := by
  induction s with
  | nil =>
    constructor
    · intro _; simp [runs, List.splitOnP_nil]
    · intro tok rest h; simp [strtok_r] at h
  | cons c cs ih =>
    by_cases h : isDelim c = true
    · rw [strtok_r_cons_delim c cs h, runs_cons_delim c cs h]; exact ih
    · have h2 : isDelim c = false := by simpa using h
      rw [strtok_r_cons_char c cs h2, runs_cons_char c cs h2]
      constructor
      · intro hc; simp at hc
      · intro tok rest he
        simp only [Option.some.injEq, Prod.mk.injEq] at he
        rw [← he.1, ← he.2]

theorem tokenize_loop_spec (slots : Nat) : ∀ (s : List Char) (count : Nat) (buf : Buf),
    tokenize_loop slots (strtok_r s) count buf =
      (Buf.writeFrom buf count (((runs s).take slots).map String.mk),
        count + min (runs s).length slots) := by
  induction slots with
  | zero =>
    intro s count buf
    cases h : strtok_r s with
    | none => simp [tokenize_loop, (strtok_r_runs s).1 h, Buf.writeFrom]
    | some p => simp [tokenize_loop, Buf.writeFrom]
  | succ n ih =>
    intro s count buf
    cases h : strtok_r s with
    | none => simp [tokenize_loop, (strtok_r_runs s).1 h, Buf.writeFrom]
    | some p =>
      obtain ⟨tok, rest⟩ := p
      rw [tokenize_loop, ih, (strtok_r_runs s).2 tok rest h]
      simp only [List.take_succ_cons, List.map_cons, Buf.writeFrom, List.length_cons,
        Nat.add_min_add_right]
      congr 1
      omega

theorem splitOnP_no_delim (s : List Char) :
    ∀ r ∈ s.splitOnP isDelim, ∀ c ∈ r, isDelim c = false := by
  induction s with
  | nil => intro r hr c hc; simp [List.splitOnP_nil] at hr; subst hr; simp at hc
  | cons x xs ih =>
    intro r hr c hc
    rw [List.splitOnP_cons] at hr
    by_cases h : isDelim x = true
    · simp only [h, if_true, List.mem_cons] at hr
      rcases hr with hr | hr
      · subst hr; simp at hc
      · exact ih r hr c hc
    · simp only [h, if_false, Bool.false_eq_true] at hr
      cases hs : xs.splitOnP isDelim with
      | nil => rw [hs] at hr; simp [List.modifyHead] at hr
      | cons a as =>
        rw [hs] at hr ih
        simp only [List.modifyHead, List.mem_cons] at hr
        rcases hr with hr | hr
        · subst hr
          simp only [List.mem_cons] at hc
          rcases hc with hc | hc
          · subst hc; simpa using h
          · exact ih a (by simp) c hc
        · exact ih r (by simp [hr]) c hc

theorem runs_spec (s : List Char) :
    ∀ r ∈ runs s, r ≠ [] ∧ ∀ c ∈ r, isDelim c = false := by
  intro r hr
  simp only [runs, List.mem_filter] at hr
  refine ⟨?_, splitOnP_no_delim s r hr.1⟩
  intro he
  rw [he] at hr
  simp at hr

/-! ## Claims about the tokenizer and the descriptor builder -/

/-- C5: for every line and every `max_tokens ≥ 1` (the buffer having at least `max_tokens`
slots), `tokenize` returns the first `min(k, max_tokens - 1)` of the `k` maximal runs of
non-delimiter characters, in order: the count is that minimum, the buffer read up to its first
`NULL` is exactly those runs, the count equals the number of tokens stored, the slot after the
last token is `NULL`, every token is non-empty and free of space, tab and newline; the
function is total and has no error result, so a longer line is truncated silently. -/
theorem tokenize_returns_leading_runs (line : List Char) (tokens : Buf) (max_tokens : Int)
    (hmax : 1 ≤ max_tokens) (hcap : max_tokens ≤ tokens.length) :
    (tokenize line tokens max_tokens).2 = min ((runs line).length : Int) (max_tokens - 1) ∧
    cstrs (tokenize line tokens max_tokens).1 =
      ((runs line).take (max_tokens - 1).toNat).map String.mk ∧
    ((cstrs (tokenize line tokens max_tokens).1).length : Int) =
      (tokenize line tokens max_tokens).2 ∧
    (∀ i, i < (tokenize line tokens max_tokens).2.toNat →
      (tokenize line tokens max_tokens).1.at i = some (String.mk ((runs line).getD i []))) ∧
    (tokenize line tokens max_tokens).1.at (tokenize line tokens max_tokens).2.toNat = none ∧
    (∀ t ∈ cstrs (tokenize line tokens max_tokens).1,
      t.data ≠ [] ∧ ∀ c ∈ t.data, c ≠ ' ' ∧ c ≠ '\t' ∧ c ≠ '\n') := by
  obtain ⟨m, hm⟩ : ∃ m : Nat, max_tokens = (m : Int) + 1 :=
    ⟨(max_tokens - 1).toNat, by omega⟩
  subst hm
  have hslots : ((m : Int) + 1 - 1).toNat = m := by omega
  have hbuf : m < tokens.length := by omega
  set toks := ((runs line).take m).map String.mk with htoks
  have hlen : toks.length = min (runs line).length m := by
    simp [htoks, List.length_take, Nat.min_comm]
  have hlt : toks.length < tokens.length := by rw [hlen]; omega
  have hbuf_eq : (tokenize line tokens ((m : Int) + 1)).1 =
      toks.map some ++ none :: tokens.drop (toks.length + 1) := by
    simp only [tokenize, hslots, tokenize_loop_spec, Nat.zero_add]
    rw [← hlen]
    exact writeFrom_zero_terminated toks tokens hlt
  have hcount : (tokenize line tokens ((m : Int) + 1)).2 = (toks.length : Int) := by
    simp only [tokenize, hslots, tokenize_loop_spec, Nat.zero_add]
    rw [← hlen]
  have hc : cstrs (tokenize line tokens ((m : Int) + 1)).1 = toks := by
    rw [hbuf_eq]; exact cstrs_map_some_append toks _
  refine ⟨?_, ?_, ?_, ?_, ?_, ?_⟩
  · rw [hcount, hlen]; omega
  · rw [hc, hslots]
  · rw [hc, hcount]
  · intro i hi
    rw [hcount] at hi
    have hi2 : i < toks.length := by omega
    rw [hbuf_eq, at_map_some_append_lt toks _ i hi2]
    have hi3 : i < ((runs line).take m).length := by simpa [htoks] using hi2
    have hi4 : i < (runs line).length := by
      rw [List.length_take] at hi3; omega
    rw [List.getD_eq_getElem _ _ hi2, List.getD_eq_getElem _ _ hi4]
    simp [htoks, List.getElem_take]
  · rw [hcount, hbuf_eq]
    simpa using at_map_some_append_len toks _
  · intro t ht
    rw [hc, htoks, List.mem_map] at ht
    obtain ⟨r, hr, rfl⟩ := ht
    have hr2 : r ∈ runs line := List.mem_of_mem_take hr
    obtain ⟨hne, hnd⟩ := runs_spec line r hr2
    refine ⟨hne, ?_⟩
    intro c hcm
    have := hnd c hcm
    simp only [isDelim, Bool.or_eq_false_iff, beq_eq_false_iff_ne, ne_eq] at this
    exact ⟨this.1.1, this.1.2, this.2⟩

/-- Witness for C5: the line `  ls  -l\tfoo ` has three runs; with `max_tokens = 3` the
first two are returned. -/
theorem tokenize_returns_leading_runs_witness :
    (tokenize "  ls  -l\tfoo ".data (List.replicate 5 (some "junk")) 3).2 = 2 ∧
    cstrs (tokenize "  ls  -l\tfoo ".data (List.replicate 5 (some "junk")) 3).1 = ["ls", "-l"] := by
  have h := tokenize_returns_leading_runs "  ls  -l\tfoo ".data
    (List.replicate 5 (some "junk")) 3 (by decide) (by decide)
  refine ⟨?_, ?_⟩
  · rw [h.1]; decide
  · rw [h.2.1]; decide

/-- C3: for every token sequence in which each scanned redirection operator is followed by a
token (and that fits the `argv` buffer), `parse_redirs` reports nothing and leaves in `argv`
exactly the tokens, in their original order, that are neither an operator token nor consumed
as a redirection path, with `NULL` right after the last of them; no element of the vector is
`>`, `>>`, `<` or `&`. -/
theorem parse_redirs_argv_spec (tokens : List String) (argv0 : Buf)
    (hcap : tokens.length < argv0.length)
    (hfollowed : ∀ i, i < tokens.length → isRedirOp (tokens.getD i "") = true →
      consumedAsPath tokens i = false → i + 1 < tokens.length) :
    (parse_redirs tokens argv0).diag = [] ∧
    cstrs (parse_redirs tokens argv0).argv = expectedArgv tokens ∧
    (∀ j, j < (expectedArgv tokens).length →
      (parse_redirs tokens argv0).argv.at j = some ((expectedArgv tokens).getD j "")) ∧
    (parse_redirs tokens argv0).argv.at (expectedArgv tokens).length = none ∧
    (∀ a ∈ cstrs (parse_redirs tokens argv0).argv,
      a ≠ ">" ∧ a ≠ ">>" ∧ a ≠ "<" ∧ a ≠ "&") := by
  have hok : okFrom false tokens = true :=
    (followedFrom_iff_okFrom tokens false).mp hfollowed
  have hexp : expectedArgv tokens = argsFrom false tokens :=
    expectedFrom_eq_argsFrom tokens false
  have hl : (argsFrom false tokens).length < argv0.length :=
    Nat.lt_of_le_of_lt (argsFrom_length_le tokens false) hcap
  obtain ⟨hargv, hdiag⟩ := parse_loop_ok tokens 0
    { argv := argv0, in_file := none, out_file := none, append := 0, diag := [] } hok
  have hbuf : (parse_redirs tokens argv0).argv =
      (argsFrom false tokens).map some ++
        none :: argv0.drop ((argsFrom false tokens).length + 1) := by
    unfold parse_redirs
    rw [hargv, Nat.zero_add]
    exact writeFrom_zero_terminated _ argv0 hl
  have hc : cstrs (parse_redirs tokens argv0).argv = argsFrom false tokens := by
    rw [hbuf]; exact cstrs_map_some_append _ _
  refine ⟨hdiag, ?_, ?_, ?_, ?_⟩
  · rw [hc, hexp]
  · intro j hj
    rw [hexp] at hj ⊢
    rw [hbuf]
    exact at_map_some_append_lt _ _ j hj
  · rw [hexp, hbuf]
    exact at_map_some_append_len _ _
  · intro a ha
    rw [hc] at ha
    have := argsFrom_not_operator tokens false a ha
    simp only [isOperator, isRedirOp, Bool.or_eq_false_iff, beq_eq_false_iff_ne, ne_eq] at this
    exact ⟨this.1.1.1, this.1.1.2, this.1.2, this.2⟩

/-- Witness for C3: `cat < in & >> out -n > <` keeps `cat` and `-n`; the final `<` is the
path of the last `>`. -/
theorem parse_redirs_argv_spec_witness :
    cstrs (parse_redirs ["cat", "<", "in", "&", ">>", "out", "-n", ">", "<"]
      (List.replicate 10 (some "junk"))).argv = ["cat", "-n"] := by
  have h := parse_redirs_argv_spec ["cat", "<", "in", "&", ">>", "out", "-n", ">", "<"]
    (List.replicate 10 (some "junk")) (by decide) (by decide)
  rw [h.2.1]; decide

/-! ## Descriptor tables -/

@[simp] theorem obj_put_same (t : FdTable) (fd : Nat) (o : Option FileObj) :
    FdTable.obj (FdTable.put t fd o) fd = o := by
  unfold FdTable.put FdTable.obj
  by_cases h : fd < t.length
  · simp [h, List.getElem?_set]
  · rw [if_neg h, List.getElem?_append_right (by simp; omega)]
    have e : fd - (t ++ List.replicate (fd - t.length) none).length = 0 := by
      simp; omega
    rw [e]; simp

theorem obj_put_other (t : FdTable) (fd j : Nat) (o : Option FileObj) (h : j ≠ fd) :
    FdTable.obj (FdTable.put t fd o) j = FdTable.obj t j := by
  unfold FdTable.put FdTable.obj
  by_cases hfd : fd < t.length
  · simp [hfd, List.getElem?_set, Ne.symm h]
  · rw [if_neg hfd]
    by_cases hj : j < t.length
    · rw [List.append_assoc, List.getElem?_append_left hj]
    · have hnone : t[j]? = none := List.getElem?_eq_none (by omega)
      rw [hnone]
      by_cases hj2 : j < fd
      · rw [List.getElem?_append_left (by simp; omega),
          List.getElem?_append_right (by omega)]
        rw [List.getElem?_replicate]
        have : j - t.length < fd - t.length := by omega
        simp [this]
      · rw [List.getElem?_eq_none (by simp; omega)]

@[simp] theorem obj_set_none_same (t : FdTable) (fd : Nat) :
    FdTable.obj (List.set t fd none) fd = none := by
  unfold FdTable.obj
  by_cases h : fd < t.length
  · simp [List.getElem?_set, h]
  · simp [List.getElem?_set, h]

theorem obj_set_none_other (t : FdTable) (fd j : Nat) (h : j ≠ fd) :
    FdTable.obj (List.set t fd none) j = FdTable.obj t j := by
  unfold FdTable.obj
  simp [List.getElem?_set, Ne.symm h]

@[simp] theorem obj_lowestFree (t : FdTable) : FdTable.obj t (FdTable.lowestFree t) = none := by
  induction t with
  | nil => simp [FdTable.lowestFree, FdTable.obj]
  | cons a t ih =>
    cases a with
    | none => simp [FdTable.lowestFree, FdTable.obj]
    | some o => simpa [FdTable.lowestFree, FdTable.obj] using ih

theorem ne_of_obj (t : FdTable) (a b : Nat) (ha : t.obj a = none) (hb : t.obj b ≠ none) :
    b ≠ a := by
  intro h; subst h; exact hb ha

/-! ## The two redirection blocks of the launcher -/

/-- The four ways through the block `if (in_file) { ... }`. -/
theorem redirect_stdin_spec (env : Env) (w : World) (in_file : Option String) :
    (in_file = none ∧ redirect_stdin env w in_file = (w, .returned)) ∨
    (∃ p, in_file = some p ∧ env.open_ok p [.O_RDONLY] = false ∧
      (redirect_stdin env w in_file).2 = .exited 1 ∧
      (redirect_stdin env w in_file).1.trace = w.trace ++
        [.open_call p [.O_RDONLY] none (-1), .perror "open <", .exit_call 1]) ∨
    (∃ p, in_file = some p ∧ env.open_ok p [.O_RDONLY] = true ∧
      env.dup2_ok w.fds.lowestFree STDIN_FILENO = false ∧
      (redirect_stdin env w in_file).2 = .exited 1 ∧
      (redirect_stdin env w in_file).1.trace = w.trace ++
        [.open_call p [.O_RDONLY] none w.fds.lowestFree,
         .dup2 w.fds.lowestFree STDIN_FILENO (-1), .perror "dup2 <", .exit_call 1]) ∨
    (∃ p, in_file = some p ∧ env.open_ok p [.O_RDONLY] = true ∧
      env.dup2_ok w.fds.lowestFree STDIN_FILENO = true ∧
      (redirect_stdin env w in_file).2 = .returned ∧
      (redirect_stdin env w in_file).1.trace = w.trace ++
        [.open_call p [.O_RDONLY] none w.fds.lowestFree,
         .dup2 w.fds.lowestFree STDIN_FILENO (STDIN_FILENO : Nat), .close w.fds.lowestFree] ∧
      (redirect_stdin env w in_file).1.fds =
        List.set (FdTable.put (FdTable.put w.fds w.fds.lowestFree (some (.file p [.O_RDONLY])))
          STDIN_FILENO (some (.file p [.O_RDONLY]))) w.fds.lowestFree none ∧
      (redirect_stdin env w in_file).1.nforks = w.nforks ∧
      (redirect_stdin env w in_file).1.npipes = w.npipes) := by
  cases in_file with
  | none => left; exact ⟨rfl, rfl⟩
  | some p =>
    right
    by_cases ho : env.open_ok p [.O_RDONLY] = true
    · right
      by_cases hd : env.dup2_ok w.fds.lowestFree STDIN_FILENO = true
      · right
        refine ⟨p, rfl, ho, hd, ?_⟩
        simp [redirect_stdin, sys_open, sys_dup2, sys_close, ho, hd, World.log]
      · left
        have hd2 : env.dup2_ok w.fds.lowestFree STDIN_FILENO = false := by simpa using hd
        refine ⟨p, rfl, ho, hd2, ?_⟩
        simp [redirect_stdin, sys_open, sys_dup2, ho, hd2, World.log]
    · left
      have ho2 : env.open_ok p [.O_RDONLY] = false := by simpa using ho
      refine ⟨p, rfl, ho2, ?_⟩
      simp [redirect_stdin, sys_open, ho2, World.log]

/-- The four ways through the block `if (out_file) { ... }`. -/
theorem redirect_stdout_spec (env : Env) (w : World) (out_file : Option String)
    (append : Int) :
    (out_file = none ∧ redirect_stdout env w out_file append = (w, .returned)) ∨
    (∃ q, out_file = some q ∧ env.open_ok q (out_flags append) = false ∧
      (redirect_stdout env w out_file append).2 = .exited 1 ∧
      (redirect_stdout env w out_file append).1.trace = w.trace ++
        [.open_call q (out_flags append) (some 0o644) (-1), .perror "open >", .exit_call 1]) ∨
    (∃ q, out_file = some q ∧ env.open_ok q (out_flags append) = true ∧
      env.dup2_ok w.fds.lowestFree STDOUT_FILENO = false ∧
      (redirect_stdout env w out_file append).2 = .exited 1 ∧
      (redirect_stdout env w out_file append).1.trace = w.trace ++
        [.open_call q (out_flags append) (some 0o644) w.fds.lowestFree,
         .dup2 w.fds.lowestFree STDOUT_FILENO (-1), .perror "dup2 >", .exit_call 1]) ∨
    (∃ q, out_file = some q ∧ env.open_ok q (out_flags append) = true ∧
      env.dup2_ok w.fds.lowestFree STDOUT_FILENO = true ∧
      (redirect_stdout env w out_file append).2 = .returned ∧
      (redirect_stdout env w out_file append).1.trace = w.trace ++
        [.open_call q (out_flags append) (some 0o644) w.fds.lowestFree,
         .dup2 w.fds.lowestFree STDOUT_FILENO (STDOUT_FILENO : Nat),
         .close w.fds.lowestFree] ∧
      (redirect_stdout env w out_file append).1.fds =
        List.set (FdTable.put (FdTable.put w.fds w.fds.lowestFree
          (some (.file q (out_flags append))))
          STDOUT_FILENO (some (.file q (out_flags append)))) w.fds.lowestFree none ∧
      (redirect_stdout env w out_file append).1.nforks = w.nforks ∧
      (redirect_stdout env w out_file append).1.npipes = w.npipes) := by
  cases out_file with
  | none => left; exact ⟨rfl, rfl⟩
  | some q =>
    right
    by_cases ho : env.open_ok q (out_flags append) = true
    · right
      by_cases hd : env.dup2_ok w.fds.lowestFree STDOUT_FILENO = true
      · right
        refine ⟨q, rfl, ho, hd, ?_⟩
        simp [redirect_stdout, sys_open, sys_dup2, sys_close, ho, hd, World.log]
      · left
        have hd2 : env.dup2_ok w.fds.lowestFree STDOUT_FILENO = false := by simpa using hd
        refine ⟨q, rfl, ho, hd2, ?_⟩
        simp [redirect_stdout, sys_open, sys_dup2, ho, hd2, World.log]
    · left
      have ho2 : env.open_ok q (out_flags append) = false := by simpa using ho
      refine ⟨q, rfl, ho2, ?_⟩
      simp [redirect_stdout, sys_open, ho2, World.log]

/-! ## The launcher as a whole -/

theorem newEvents_of_trace (w w1 : World) (evs : List Event) (h : w1.trace = w.trace ++ evs) :
    newEvents w w1 = evs := by
  simp [newEvents, h]

theorem andThen_returned (r : World × Outcome) (k : World → World × Outcome)
    (h : r.2 = .returned) : andThen r k = k r.1 := by
  simp [andThen, h]

theorem andThen_pair (w : World) (k : World → World × Outcome) :
    andThen (w, Outcome.returned) k = k w := rfl

theorem andThen_exited (r : World × Outcome) (k : World → World × Outcome) (n : Int)
    (h : r.2 = .exited n) : andThen r k = r := by
  simp [andThen, h]

/-- What the input block contributes: it ends the process with status 1 or falls through,
never calls `execvp`, and a failed `open` is its only call. -/
theorem redirect_stdin_summary (env : Env) (w : World) (in_file : Option String) :
    ∃ evs, (redirect_stdin env w in_file).1.trace = w.trace ++ evs ∧
      (∀ f a, Event.execvp f a ∉ evs) ∧
      ((redirect_stdin env w in_file).2 = .returned ∨
        (redirect_stdin env w in_file).2 = .exited 1) ∧
      (∀ p, in_file = some p → env.open_ok p [.O_RDONLY] = false →
        (redirect_stdin env w in_file).2 = .exited 1 ∧
        evs = [.open_call p [.O_RDONLY] none (-1), .perror "open <", .exit_call 1]) ∧
      ((∀ p fl, env.open_ok p fl = true) → (∀ a b, env.dup2_ok a b = true) →
        (redirect_stdin env w in_file).2 = .returned) := by
  rcases redirect_stdin_spec env w in_file with
    ⟨hin, e⟩ | ⟨p, hin, ho, h2, htr⟩ | ⟨p, hin, ho, hd, h2, htr⟩ |
    ⟨p, hin, ho, hd, h2, htr, _, _, _⟩
  · exact ⟨[], by simp [e], by simp, by simp [e], by simp [hin], by simp [e]⟩
  · refine ⟨_, htr, by simp, Or.inr h2, ?_, ?_⟩
    · intro p' hp' _
      rw [hin] at hp'
      cases hp'
      exact ⟨h2, rfl⟩
    · intro hall _
      rw [hall] at ho
      cases ho
  · refine ⟨_, htr, by simp, Or.inr h2, ?_, ?_⟩
    · intro p' hp' hf
      rw [hin] at hp'
      cases hp'
      rw [ho] at hf
      cases hf
    · intro _ hall
      rw [hall] at hd
      cases hd
  · refine ⟨_, htr, by simp, Or.inl h2, ?_, fun _ _ => h2⟩
    intro p' hp' hf
    rw [hin] at hp'
    cases hp'
    rw [ho] at hf
    cases hf

/-- What the output block contributes, in the same terms. -/
theorem redirect_stdout_summary (env : Env) (w : World) (out_file : Option String)
    (append : Int) :
    ∃ evs, (redirect_stdout env w out_file append).1.trace = w.trace ++ evs ∧
      (∀ f a, Event.execvp f a ∉ evs) ∧
      ((redirect_stdout env w out_file append).2 = .returned ∨
        (redirect_stdout env w out_file append).2 = .exited 1) ∧
      (∀ q, out_file = some q → env.open_ok q (out_flags append) = false →
        (redirect_stdout env w out_file append).2 = .exited 1 ∧
        evs = [.open_call q (out_flags append) (some 0o644) (-1), .perror "open >",
          .exit_call 1]) ∧
      ((∀ p fl, env.open_ok p fl = true) → (∀ a b, env.dup2_ok a b = true) →
        (redirect_stdout env w out_file append).2 = .returned) := by
  rcases redirect_stdout_spec env w out_file append with
    ⟨hout, e⟩ | ⟨q, hout, ho, h2, htr⟩ | ⟨q, hout, ho, hd, h2, htr⟩ |
    ⟨q, hout, ho, hd, h2, htr, _, _, _⟩
  · exact ⟨[], by simp [e], by simp, by simp [e], by simp [hout], by simp [e]⟩
  · refine ⟨_, htr, by simp, Or.inr h2, ?_, ?_⟩
    · intro q' hq' _
      rw [hout] at hq'
      cases hq'
      exact ⟨h2, rfl⟩
    · intro hall _
      rw [hall] at ho
      cases ho
  · refine ⟨_, htr, by simp, Or.inr h2, ?_, ?_⟩
    · intro q' hq' hf
      rw [hout] at hq'
      cases hq'
      rw [ho] at hf
      cases hf
    · intro _ hall
      rw [hall] at hd
      cases hd
  · refine ⟨_, htr, by simp, Or.inl h2, ?_, fun _ _ => h2⟩
    intro q' hq' hf
    rw [hout] at hq'
    cases hq'
    rw [ho] at hf
    cases hf

/-- The last three statements of the launcher: with `argv[0] = NULL` the process is killed
inside `execvp`; otherwise the image is replaced, or `execvp` returns and the process ends
with status 127. -/
theorem exec_tail_spec (env : Env) (w : World) (argv : Buf) :
    (argv.at 0 = none ∧
      exec_tail env w argv =
        ({ w with trace := w.trace ++ [.execvp (argv.at 0) (cstrs argv)] },
          .killed SIGSEGV)) ∨
    (argv.at 0 ≠ none ∧ env.execvp_ok (argv.at 0) (cstrs argv) = true ∧
      exec_tail env w argv =
        ({ w with trace := w.trace ++ [.execvp (argv.at 0) (cstrs argv)] }, .replaced)) ∨
    (argv.at 0 ≠ none ∧ env.execvp_ok (argv.at 0) (cstrs argv) = false ∧
      exec_tail env w argv =
        ({ w with trace := w.trace ++ [.execvp (argv.at 0) (cstrs argv), .perror "execvp",
            .exit_call 127] }, .exited 127)) := by
  cases h0 : argv.at 0 with
  | none => left; simp [exec_tail, sys_execvp, h0, World.log]
  | some f =>
    right
    by_cases hx : env.execvp_ok (some f) (cstrs argv) = true
    · left; simp [exec_tail, sys_execvp, h0, hx, World.log]
    · right
      have hx2 : env.execvp_ok (some f) (cstrs argv) = false := by simpa using hx
      simp [exec_tail, sys_execvp, h0, hx2, World.log]

/-- The launcher in one of four shapes: stopped in the input block, stopped in the output
block, arrived at `execvp` with a command name, or arrived at `execvp` with
`argv[0] = NULL`. -/
theorem exec_with_redirs_shape (env : Env) (w : World) (argv : Buf)
    (in_file out_file : Option String) (append : Int) :
    ∃ evs, (exec_with_redirs env w argv in_file out_file append).1.trace = w.trace ++ evs ∧
      (((exec_with_redirs env w argv in_file out_file append).2 = .exited 1 ∧
          (∀ f a, Event.execvp f a ∉ evs)) ∨
        ((exec_with_redirs env w argv in_file out_file append).2 = .replaced ∧
          argv.at 0 ≠ none ∧ env.execvp_ok (argv.at 0) (cstrs argv) = true ∧
          Event.execvp (argv.at 0) (cstrs argv) ∈ evs) ∨
        ((exec_with_redirs env w argv in_file out_file append).2 = .exited 127 ∧
          argv.at 0 ≠ none ∧ env.execvp_ok (argv.at 0) (cstrs argv) = false ∧
          Event.execvp (argv.at 0) (cstrs argv) ∈ evs) ∨
        ((exec_with_redirs env w argv in_file out_file append).2 = .killed SIGSEGV ∧
          argv.at 0 = none ∧ Event.execvp (argv.at 0) (cstrs argv) ∈ evs ∧
          (∀ st, Event.exit_call st ∉ evs) ∧ (∀ tag, Event.perror tag ∉ evs))) ∧
      (∀ f a, Event.execvp f a ∈ evs → f = argv.at 0 ∧ a = cstrs argv) ∧
      (∀ p, in_file = some p → env.open_ok p [.O_RDONLY] = false →
        evs = [.open_call p [.O_RDONLY] none (-1), .perror "open <", .exit_call 1]) ∧
      ((∀ p, in_file = some p → env.open_ok p [.O_RDONLY] = true) →
        ∀ q, out_file = some q → env.open_ok q (out_flags append) = false →
          (exec_with_redirs env w argv in_file out_file append).2 = .exited 1) ∧
      ((∀ p fl, env.open_ok p fl = true) → (∀ a b, env.dup2_ok a b = true) →
        Event.execvp (argv.at 0) (cstrs argv) ∈ evs) := by
  obtain ⟨evs1, ht1, hne1, hout1, hfail1, hall1⟩ := redirect_stdin_summary env w in_file
  rcases hout1 with hr1 | hx1
  · obtain ⟨evs2, ht2, hne2, hout2, hfail2, hall2⟩ :=
      redirect_stdout_summary env (redirect_stdin env w in_file).1 out_file append
    have hin_ok : ∀ p, in_file = some p → env.open_ok p [.O_RDONLY] = false → False := by
      intro p hp hf
      have := (hfail1 p hp hf).1
      rw [hr1] at this
      cases this
    rcases hout2 with hr2 | hx2
    · have hout_ok : ∀ q, out_file = some q → env.open_ok q (out_flags append) = false →
          False := by
        intro q hq hf
        have := (hfail2 q hq hf).1
        rw [hr2] at this
        cases this
      have E0 : exec_with_redirs env w argv in_file out_file append =
          exec_tail env (redirect_stdout env (redirect_stdin env w in_file).1 out_file
            append).1 argv := by
        unfold exec_with_redirs
        rw [andThen_returned _ _ hr1, andThen_returned _ _ hr2]
      have hmem : ∀ (tl : List Event), (∀ f a, Event.execvp f a ∉ tl) → ∀ f a,
          Event.execvp f a ∈ evs1 ++ evs2 ++ (Event.execvp (argv.at 0) (cstrs argv) :: tl) →
          f = argv.at 0 ∧ a = cstrs argv := by
        intro tl htl f a hm
        simp only [List.mem_append, List.mem_cons] at hm
        rcases hm with (hm | hm) | hm | hm
        · exact absurd hm (hne1 f a)
        · exact absurd hm (hne2 f a)
        · cases hm; exact ⟨rfl, rfl⟩
        · exact absurd hm (htl f a)
      rcases exec_tail_spec env (redirect_stdout env (redirect_stdin env w in_file).1
        out_file append).1 argv with ⟨h0, et⟩ | ⟨h0, hx, et⟩ | ⟨h0, hx, et⟩
      · rw [E0, et]
        refine ⟨evs1 ++ evs2 ++ [.execvp (argv.at 0) (cstrs argv)], ?_, ?_, ?_, ?_, ?_, ?_⟩
        · simp [ht2, ht1]
        · right; right; right
          refine ⟨rfl, h0, by simp, ?_, ?_⟩
          · intro st hm
            simp only [List.mem_append, List.mem_singleton] at hm
            rcases hm with (hm | hm) | hm
            · rcases redirect_stdin_spec env w in_file with
                ⟨_, e⟩ | ⟨_, _, _, h2, _⟩ | ⟨_, _, _, _, h2, _⟩ |
                ⟨_, _, _, _, _, htr, _⟩
              · rw [e] at ht1
                have : evs1 = [] := by simpa using ht1
                rw [this] at hm; simp at hm
              · rw [hr1] at h2; cases h2
              · rw [hr1] at h2; cases h2
              · rw [htr] at ht1
                have := List.append_cancel_left ht1
                rw [← this] at hm; simp at hm
            · rcases redirect_stdout_spec env (redirect_stdin env w in_file).1 out_file
                append with
                ⟨_, e⟩ | ⟨_, _, _, h2, _⟩ | ⟨_, _, _, _, h2, _⟩ |
                ⟨_, _, _, _, _, htr, _⟩
              · rw [e] at ht2
                have : evs2 = [] := by simpa using ht2
                rw [this] at hm; simp at hm
              · rw [hr2] at h2; cases h2
              · rw [hr2] at h2; cases h2
              · rw [htr] at ht2
                have := List.append_cancel_left ht2
                rw [← this] at hm; simp at hm
            · cases hm
          · intro tag hm
            simp only [List.mem_append, List.mem_singleton] at hm
            rcases hm with (hm | hm) | hm
            · rcases redirect_stdin_spec env w in_file with
                ⟨_, e⟩ | ⟨_, _, _, h2, _⟩ | ⟨_, _, _, _, h2, _⟩ |
                ⟨_, _, _, _, _, htr, _⟩
              · rw [e] at ht1
                have : evs1 = [] := by simpa using ht1
                rw [this] at hm; simp at hm
              · rw [hr1] at h2; cases h2
              · rw [hr1] at h2; cases h2
              · rw [htr] at ht1
                have := List.append_cancel_left ht1
                rw [← this] at hm; simp at hm
            · rcases redirect_stdout_spec env (redirect_stdin env w in_file).1 out_file
                append with
                ⟨_, e⟩ | ⟨_, _, _, h2, _⟩ | ⟨_, _, _, _, h2, _⟩ |
                ⟨_, _, _, _, _, htr, _⟩
              · rw [e] at ht2
                have : evs2 = [] := by simpa using ht2
                rw [this] at hm; simp at hm
              · rw [hr2] at h2; cases h2
              · rw [hr2] at h2; cases h2
              · rw [htr] at ht2
                have := List.append_cancel_left ht2
                rw [← this] at hm; simp at hm
            · cases hm
        · exact hmem [] (by simp)
        · intro p hp hf; exact absurd (hin_ok p hp hf) id
        · intro _ q hq hf; exact absurd (hout_ok q hq hf) id
        · intro _ _; simp
      · rw [E0, et]
        refine ⟨evs1 ++ evs2 ++ [.execvp (argv.at 0) (cstrs argv)], ?_, ?_, ?_, ?_, ?_, ?_⟩
        · simp [ht2, ht1]
        · right; left; exact ⟨rfl, h0, hx, by simp⟩
        · exact hmem [] (by simp)
        · intro p hp hf; exact absurd (hin_ok p hp hf) id
        · intro _ q hq hf; exact absurd (hout_ok q hq hf) id
        · intro _ _; simp
      · rw [E0, et]
        refine ⟨evs1 ++ evs2 ++ [.execvp (argv.at 0) (cstrs argv), .perror "execvp",
          .exit_call 127], ?_, ?_, ?_, ?_, ?_, ?_⟩
        · simp [ht2, ht1]
        · right; right; left; exact ⟨rfl, h0, hx, by simp⟩
        · exact hmem [.perror "execvp", .exit_call 127] (by simp)
        · intro p hp hf; exact absurd (hin_ok p hp hf) id
        · intro _ q hq hf; exact absurd (hout_ok q hq hf) id
        · intro _ _; simp
    · have E : exec_with_redirs env w argv in_file out_file append =
          redirect_stdout env (redirect_stdin env w in_file).1 out_file append := by
        unfold exec_with_redirs
        rw [andThen_returned _ _ hr1, andThen_exited _ _ 1 hx2]
      rw [E]
      refine ⟨evs1 ++ evs2, ?_, ?_, ?_, ?_, ?_, ?_⟩
      · simp [ht2, ht1]
      · left
        refine ⟨hx2, ?_⟩
        intro f a hm
        rcases List.mem_append.mp hm with hm | hm
        · exact hne1 f a hm
        · exact hne2 f a hm
      · intro f a hm
        rcases List.mem_append.mp hm with hm | hm
        · exact absurd hm (hne1 f a)
        · exact absurd hm (hne2 f a)
      · intro p hp hf; exact absurd (hin_ok p hp hf) id
      · intro _ q _ _; exact hx2
      · intro h1 h2
        have := hall2 h1 h2
        rw [hx2] at this
        cases this
  · have E : exec_with_redirs env w argv in_file out_file append =
        redirect_stdin env w in_file := by
      unfold exec_with_redirs
      rw [andThen_exited _ _ 1 hx1]
    rw [E]
    refine ⟨evs1, ht1, ?_, ?_, ?_, ?_, ?_⟩
    · left; exact ⟨hx1, hne1⟩
    · intro f a hm; exact absurd hm (hne1 f a)
    · intro p hp hf; exact (hfail1 p hp hf).2
    · intro _ q _ _; exact hx1
    · intro h1 h2
      have := hall1 h1 h2
      rw [hx1] at this
      cases this

/-- The launcher on a vector with a command name (`argv[0]` not `NULL`): it never returns
to its caller; a failed read-only `open` of the input path gives status 1 with no other call
made; otherwise a failed `open` of the output path (flags `O_WRONLY | O_CREAT` with
`O_APPEND` or `O_TRUNC` per the append flag, mode 0644) gives status 1 with `execvp` not
attempted; otherwise, when `execvp` is attempted with a command name and returns, the status
is 127, and it is attempted whenever every `open` and `dup2` succeeds.  The first four
statements hold for every vector. -/
theorem exec_with_redirs_status_of_command (env : Env) (w : World) (argv : Buf)
    (in_file out_file : Option String) (append : Int) :
    (exec_with_redirs env w argv in_file out_file append).2 ≠ .returned ∧
    (∀ p, in_file = some p → env.open_ok p [.O_RDONLY] = false →
      (exec_with_redirs env w argv in_file out_file append).2 = .exited 1 ∧
      newEvents w (exec_with_redirs env w argv in_file out_file append).1 =
        [.open_call p [.O_RDONLY] none (-1), .perror "open <", .exit_call 1]) ∧
    (∀ q, out_file = some q → (∀ p, in_file = some p → env.open_ok p [.O_RDONLY] = true) →
      env.open_ok q (out_flags append) = false →
      (exec_with_redirs env w argv in_file out_file append).2 = .exited 1 ∧
      ∀ f a, Event.execvp f a ∉
        newEvents w (exec_with_redirs env w argv in_file out_file append).1) ∧
    (∀ q, out_file = some q → in_file = none → env.open_ok q (out_flags append) = false →
      newEvents w (exec_with_redirs env w argv in_file out_file append).1 =
        [.open_call q [.O_WRONLY, .O_CREAT, if append ≠ 0 then .O_APPEND else .O_TRUNC]
          (some 0o644) (-1), .perror "open >", .exit_call 1]) ∧
    (∀ f a, Event.execvp (some f) a ∈
        newEvents w (exec_with_redirs env w argv in_file out_file append).1 →
      env.execvp_ok (some f) a = false →
      (exec_with_redirs env w argv in_file out_file append).2 = .exited 127) ∧
    (argv.at 0 ≠ none →
      (∀ p fl, env.open_ok p fl = true) → (∀ a b, env.dup2_ok a b = true) →
      env.execvp_ok (argv.at 0) (cstrs argv) = false →
      Event.execvp (argv.at 0) (cstrs argv) ∈
        newEvents w (exec_with_redirs env w argv in_file out_file append).1 ∧
      (exec_with_redirs env w argv in_file out_file append).2 = .exited 127) := by
  have hflags : ∀ q, out_file = some q → in_file = none →
      env.open_ok q (out_flags append) = false →
      newEvents w (exec_with_redirs env w argv in_file out_file append).1 =
        [.open_call q [.O_WRONLY, .O_CREAT, if append ≠ 0 then .O_APPEND else .O_TRUNC]
          (some 0o644) (-1), .perror "open >", .exit_call 1] := by
    intro q hq hn hf
    subst hq hn
    rcases redirect_stdout_spec env w (some q) append with
      ⟨hc, _⟩ | ⟨q1, hq1, _, h2, htr⟩ | ⟨q1, hq1, ho, _⟩ | ⟨q1, hq1, ho, _⟩
    · cases hc
    · cases hq1
      have E : exec_with_redirs env w argv none (some q) append =
          redirect_stdout env w (some q) append := by
        unfold exec_with_redirs
        rw [show redirect_stdin env w none = (w, .returned) from rfl, andThen_pair,
          andThen_exited _ _ 1 h2]
      rw [E]
      exact newEvents_of_trace _ _ _ htr
    · cases hq1; rw [hf] at ho; cases ho
    · cases hq1; rw [hf] at ho; cases ho
  obtain ⟨evs, htr, hshape, hexec, hin, hout, hall⟩ :=
    exec_with_redirs_shape env w argv in_file out_file append
  rw [newEvents_of_trace _ _ _ htr] at hflags ⊢
  have h127 : ∀ f a, Event.execvp (some f) a ∈ evs → env.execvp_ok (some f) a = false →
      (exec_with_redirs env w argv in_file out_file append).2 = .exited 127 := by
    intro f a hm hf
    obtain ⟨h1, rfl⟩ := hexec (some f) a hm
    rcases hshape with ⟨_, hno⟩ | ⟨_, _, hok, _⟩ | ⟨h, _, _⟩ | ⟨_, h0, _⟩
    · exact absurd hm (hno _ _)
    · rw [← h1, hf] at hok; cases hok
    · exact h
    · rw [← h1] at h0; cases h0
  refine ⟨?_, ?_, ?_, hflags, h127, ?_⟩
  · rcases hshape with ⟨h, _⟩ | ⟨h, _, _⟩ | ⟨h, _, _⟩ | ⟨h, _, _⟩ <;> rw [h] <;> simp
  · intro p hp hf
    have hevs := hin p hp hf
    rcases hshape with ⟨h, _⟩ | ⟨_, _, _, hm⟩ | ⟨_, _, _, hm⟩ | ⟨_, _, hm, _⟩
    · exact ⟨h, hevs⟩
    · rw [hevs] at hm; simp at hm
    · rw [hevs] at hm; simp at hm
    · rw [hevs] at hm; simp at hm
  · intro q hq hinok hf
    have h1 := hout hinok q hq hf
    refine ⟨h1, ?_⟩
    intro f a hm
    rcases hshape with ⟨_, hno⟩ | ⟨h, _, _⟩ | ⟨h, _, _⟩ | ⟨h, _, _⟩
    · exact hno f a hm
    · rw [h] at h1; cases h1
    · rw [h] at h1; cases h1
    · rw [h] at h1; cases h1
  · intro h0 h1 h2 hf
    have hm := hall h1 h2
    refine ⟨hm, ?_⟩
    cases hz : argv.at 0 with
    | none => exact absurd hz h0
    | some f =>
      rw [hz] at hm hf
      exact h127 f _ hm hf

/-! ## The orchestrators -/

theorem andThen_not_returned (r : World × Outcome) (k : World → World × Outcome)
    (h : r.2 ≠ .returned) : andThen r k = r := by
  unfold andThen
  split
  · rename_i h2; exact absurd h2 h
  · rfl

theorem is_background_flag_amp (tokens : List String) (h : tokens.getLast? = some "&") :
    is_background tokens = (1, tokens.dropLast) := by
  have hne : tokens ≠ [] := by intro hc; simp [hc] at h
  have : tokens.length > 0 := List.length_pos.mpr hne
  simp [is_background, h, this]

theorem is_background_flag_none (tokens : List String) (h : tokens.getLast? ≠ some "&") :
    is_background tokens = (0, tokens) := by
  simp [is_background, h]

/-- The parent's path through `run_single` once `fork` has returned a pid. -/
theorem run_single_parent (env : Env) (w : World) (tokens : List String) (argv0 : Buf)
    (a0 : String)
    (h0 : (parse_redirs (is_background tokens).2 argv0).argv.at 0 = some a0)
    (hexit : a0 ≠ "exit") (hcd : a0 ≠ "cd") (hpid : 0 < env.fork_ret w.nforks) :
    (run_single env w tokens argv0).2 = .returned ∧
    newEvents w (run_single env w tokens argv0).1 =
      (parse_redirs (is_background tokens).2 argv0).diag.map Event.write_stderr ++
        [.fork (env.fork_ret w.nforks),
         if (is_background tokens).1 = 0 then .waitpid (env.fork_ret w.nforks)
         else .write_stdout ("[bg] pid=" ++ toString (env.fork_ret w.nforks) ++ "\n")] := by
  have h1 : ¬ env.fork_ret w.nforks < 0 := by omega
  have h2 : ¬ env.fork_ret w.nforks = 0 := by omega
  by_cases hb : (is_background tokens).1 = 0
  · simp [run_single, h0, hexit, hcd, sys_fork, World.logs, World.log, h1, h2, hb, andThen,
      newEvents]
  · simp [run_single, h0, hexit, hcd, sys_fork, World.logs, World.log, h1, h2, hb, andThen,
      newEvents]


/-- The parent's path through `run_pipeline` once both calls of `fork` have returned a pid. -/
theorem run_pipeline_parent (env : Env) (w : World) (left_tokens right_tokens : List String)
    (left_argv0 right_argv0 : Buf) (hpipe : env.pipe_ok = true)
    (hp1 : 0 < env.fork_ret w.nforks) (hp2 : 0 < env.fork_ret (w.nforks + 1)) :
    (run_pipeline env w left_tokens right_tokens left_argv0 right_argv0).2 = .returned ∧
    newEvents w (run_pipeline env w left_tokens right_tokens left_argv0 right_argv0).1 =
      (parse_redirs left_tokens left_argv0).diag.map Event.write_stderr ++
      (parse_redirs right_tokens right_argv0).diag.map Event.write_stderr ++
      [.pipe 0, .fork (env.fork_ret w.nforks), .fork (env.fork_ret (w.nforks + 1)),
       .close w.fds.lowestFree,
       .close (FdTable.lowestFree (FdTable.put w.fds w.fds.lowestFree
          (some (.pipeRead w.npipes))))] ++
      (if (is_background right_tokens).1 = 0 then
         [.waitpid (env.fork_ret w.nforks), .waitpid (env.fork_ret (w.nforks + 1))]
       else
         [.write_stdout ("[bg] p1=" ++ toString (env.fork_ret w.nforks) ++ " p2=" ++
            toString (env.fork_ret (w.nforks + 1)) ++ "\n")]) := by
  have h1 : ¬ env.fork_ret w.nforks < 0 := by omega
  have h2 : ¬ env.fork_ret w.nforks = 0 := by omega
  have h3 : ¬ env.fork_ret (w.nforks + 1) < 0 := by omega
  have h4 : ¬ env.fork_ret (w.nforks + 1) = 0 := by omega
  by_cases hb : (is_background right_tokens).1 = 0
  · simp [run_pipeline, sys_pipe, hpipe, sys_fork, sys_close, World.logs, World.log, h1, h2,
      h3, h4, hb, andThen, newEvents]
  · simp [run_pipeline, sys_pipe, hpipe, sys_fork, sys_close, World.logs, World.log, h1, h2,
      h3, h4, hb, andThen, newEvents]

/-- C10: when process creation succeeds, the parent waits exactly when the background flag
is unset.  In `run_single`, once `fork` has returned the child's pid, a line without a trailing
`&` continues with `waitpid` on that pid and nothing else (no write to standard output), and a
line with a trailing `&` continues with the line `[bg] pid=<pid>` on standard output and no
`waitpid`.  In `run_pipeline`, once both calls of `fork` have returned a pid, a right-hand
command without a trailing `&` continues (after closing both pipe descriptors) with `waitpid`
on both pids, and one with a trailing `&` with the line `[bg] p1=<pid1> p2=<pid2>` and no
`waitpid`.  The only calls before `fork` are the diagnostics of `parse_redirs`. -/
theorem parent_waits_iff_foreground (env : Env) (w : World) :
    (∀ (tokens : List String) (argv0 : Buf) (a0 : String),
      (parse_redirs (is_background tokens).2 argv0).argv.at 0 = some a0 →
      a0 ≠ "exit" → a0 ≠ "cd" → 0 < env.fork_ret w.nforks →
      (run_single env w tokens argv0).2 = .returned ∧
      (tokens.getLast? ≠ some "&" →
        newEvents w (run_single env w tokens argv0).1 =
          (parse_redirs tokens argv0).diag.map Event.write_stderr ++
            [.fork (env.fork_ret w.nforks), .waitpid (env.fork_ret w.nforks)]) ∧
      (tokens.getLast? = some "&" →
        newEvents w (run_single env w tokens argv0).1 =
          (parse_redirs tokens.dropLast argv0).diag.map Event.write_stderr ++
            [.fork (env.fork_ret w.nforks),
             .write_stdout ("[bg] pid=" ++ toString (env.fork_ret w.nforks) ++ "\n")])) ∧
    (∀ (left_tokens right_tokens : List String) (left_argv0 right_argv0 : Buf),
      env.pipe_ok = true → 0 < env.fork_ret w.nforks → 0 < env.fork_ret (w.nforks + 1) →
      (run_pipeline env w left_tokens right_tokens left_argv0 right_argv0).2 = .returned ∧
      (right_tokens.getLast? ≠ some "&" →
        newEvents w (run_pipeline env w left_tokens right_tokens left_argv0 right_argv0).1 =
          (parse_redirs left_tokens left_argv0).diag.map Event.write_stderr ++
          (parse_redirs right_tokens right_argv0).diag.map Event.write_stderr ++
          [.pipe 0, .fork (env.fork_ret w.nforks), .fork (env.fork_ret (w.nforks + 1)),
           .close w.fds.lowestFree,
           .close (FdTable.lowestFree (FdTable.put w.fds w.fds.lowestFree
              (some (.pipeRead w.npipes)))),
           .waitpid (env.fork_ret w.nforks), .waitpid (env.fork_ret (w.nforks + 1))]) ∧
      (right_tokens.getLast? = some "&" →
        newEvents w (run_pipeline env w left_tokens right_tokens left_argv0 right_argv0).1 =
          (parse_redirs left_tokens left_argv0).diag.map Event.write_stderr ++
          (parse_redirs right_tokens right_argv0).diag.map Event.write_stderr ++
          [.pipe 0, .fork (env.fork_ret w.nforks), .fork (env.fork_ret (w.nforks + 1)),
           .close w.fds.lowestFree,
           .close (FdTable.lowestFree (FdTable.put w.fds w.fds.lowestFree
              (some (.pipeRead w.npipes)))),
           .write_stdout ("[bg] p1=" ++ toString (env.fork_ret w.nforks) ++ " p2=" ++
              toString (env.fork_ret (w.nforks + 1)) ++ "\n")])) := by
  constructor
  · intro tokens argv0 a0 h0 hexit hcd hpid
    obtain ⟨hr, hev⟩ := run_single_parent env w tokens argv0 a0 h0 hexit hcd hpid
    refine ⟨hr, ?_, ?_⟩
    · intro hl
      rw [hev, is_background_flag_none tokens hl]
      simp
    · intro hl
      rw [hev, is_background_flag_amp tokens hl]
      simp
  · intro left_tokens right_tokens left_argv0 right_argv0 hpipe hp1 hp2
    obtain ⟨hr, hev⟩ := run_pipeline_parent env w left_tokens right_tokens left_argv0
      right_argv0 hpipe hp1 hp2
    refine ⟨hr, ?_, ?_⟩
    · intro hl
      rw [hev, is_background_flag_none right_tokens hl]
      simp
    · intro hl
      rw [hev, is_background_flag_amp right_tokens hl]
      simp

set_option maxRecDepth 20000 in
/-- Witness for C10: `sleep 5 &` in the parent prints `[bg] pid=100` and does not wait;
`ls | wc` waits for both children. -/
theorem parent_waits_iff_foreground_witness :
    newEvents demoWorld (run_single demoEnv demoWorld ["sleep", "5", "&"]
      (List.replicate MAX_TOKENS none)).1 =
      [.fork 100, .write_stdout "[bg] pid=100\n"] ∧
    newEvents demoWorld (run_pipeline demoEnv demoWorld ["ls"] ["wc"]
      (List.replicate MAX_TOKENS none) (List.replicate MAX_TOKENS none)).1 =
      [.pipe 0, .fork 100, .fork 101, .close 3, .close 4, .waitpid 100, .waitpid 101] := by
  have h := parent_waits_iff_foreground demoEnv demoWorld
  constructor
  · have h1 := (h.1 ["sleep", "5", "&"] (List.replicate MAX_TOKENS none) "sleep"
      (by decide) (by decide) (by decide) (by decide)).2.2 (by decide)
    rw [h1]; decide
  · have h2 := (h.2 ["ls"] ["wc"] (List.replicate MAX_TOKENS none)
      (List.replicate MAX_TOKENS none) (by decide) (by decide) (by decide)).2.1 (by decide)
    rw [h2]; decide

/-! ## Descriptor wiring in the pipeline -/

/-- The two descriptors `pipe` hands out differ from each other and, when the standard input
and output are open, from `0` and `1`. -/
theorem pipe_alloc_ne (t : FdTable) (a : FileObj) :
    t.lowestFree ≠ FdTable.lowestFree (FdTable.put t t.lowestFree (some a)) ∧
    (∀ j, FdTable.obj t j ≠ none → j ≠ t.lowestFree ∧
      j ≠ FdTable.lowestFree (FdTable.put t t.lowestFree (some a))) := by
  constructor
  · apply ne_of_obj (FdTable.put t t.lowestFree (some a)) _ _ (obj_lowestFree _)
    simp
  · intro j hj
    have h1 : j ≠ t.lowestFree := ne_of_obj t _ _ (obj_lowestFree t) hj
    refine ⟨h1, ?_⟩
    apply ne_of_obj (FdTable.put t t.lowestFree (some a)) _ _ (obj_lowestFree _)
    rw [obj_put_other _ _ _ _ h1]
    exact hj

theorem lowestFree_le (t : FdTable) : ∀ j, FdTable.obj t j = none → t.lowestFree ≤ j := by
  induction t with
  | nil => intro j _; simp [FdTable.lowestFree]
  | cons a t ih =>
    intro j hj
    cases a with
    | none => simp [FdTable.lowestFree]
    | some o =>
      cases j with
      | zero => simp [FdTable.obj] at hj
      | succ j =>
        have := ih j (by simpa [FdTable.obj] using hj)
        simp only [FdTable.lowestFree]
        omega

/-- With the standard input open, `pipe` hands out neither `0` nor, for the write end, `1`. -/
theorem pipe_alloc_stdin (t : FdTable) (a : FileObj)
    (h0 : FdTable.obj t STDIN_FILENO ≠ none) :
    STDIN_FILENO ≠ t.lowestFree ∧
    STDIN_FILENO ≠ FdTable.lowestFree (FdTable.put t t.lowestFree (some a)) ∧
    STDOUT_FILENO ≠ FdTable.lowestFree (FdTable.put t t.lowestFree (some a)) := by
  obtain ⟨hne, hall⟩ := pipe_alloc_ne t a
  obtain ⟨h0r, h0w⟩ := hall STDIN_FILENO h0
  refine ⟨h0r, h0w, ?_⟩
  by_cases h1 : FdTable.obj t STDOUT_FILENO = none
  · have hle := lowestFree_le t STDOUT_FILENO h1
    have hrd : t.lowestFree = STDOUT_FILENO := by
      have : t.lowestFree ≠ 0 := fun hc => h0r hc.symm
      have h1v : STDOUT_FILENO = 1 := rfl
      omega
    rw [hrd] at hne ⊢
    exact hne
  · exact (hall STDOUT_FILENO h1).2

/-- The input block when every `open` and `dup2` succeeds: control falls through and every
descriptor other than `0` is as before. -/
theorem redirect_stdin_others (env : Env) (w : World) (in_file : Option String)
    (hopen : ∀ p fl, env.open_ok p fl = true) (hdup : ∀ a b, env.dup2_ok a b = true) :
    (redirect_stdin env w in_file).2 = .returned ∧
    (∀ j, j ≠ STDIN_FILENO →
      FdTable.obj (redirect_stdin env w in_file).1.fds j = FdTable.obj w.fds j) := by
  rcases redirect_stdin_spec env w in_file with
    ⟨hin, e⟩ | ⟨p, _, ho, _, _⟩ | ⟨p, _, _, hd, _, _⟩ |
    ⟨p, hin, _, _, h2, _, hfds, _, _⟩
  · subst hin; rw [e]; simp
  · rw [hopen] at ho; cases ho
  · rw [hdup] at hd; cases hd
  · subst hin
    refine ⟨h2, ?_⟩
    intro j hj
    rw [hfds]
    by_cases hjf : j = w.fds.lowestFree
    · subst hjf; simp
    · rw [obj_set_none_other _ _ _ hjf, obj_put_other _ STDIN_FILENO _ _ hj,
        obj_put_other _ _ _ _ hjf]

/-- The input block when every `open` and `dup2` succeeds and descriptor `0` is open on
entry: descriptor `0` then refers to the input file. -/
theorem redirect_stdin_target (env : Env) (w : World) (in_file : Option String)
    (hopen : ∀ p fl, env.open_ok p fl = true) (hdup : ∀ a b, env.dup2_ok a b = true)
    (h0 : FdTable.obj w.fds STDIN_FILENO ≠ none) :
    FdTable.obj (redirect_stdin env w in_file).1.fds STDIN_FILENO =
      (match in_file with
       | some p => some (.file p [.O_RDONLY])
       | none => FdTable.obj w.fds STDIN_FILENO) := by
  rcases redirect_stdin_spec env w in_file with
    ⟨hin, e⟩ | ⟨p, _, ho, _, _⟩ | ⟨p, _, _, hd, _, _⟩ |
    ⟨p, hin, _, _, h2, _, hfds, _, _⟩
  · subst hin; rw [e]
  · rw [hopen] at ho; cases ho
  · rw [hdup] at hd; cases hd
  · subst hin
    have hne : STDIN_FILENO ≠ w.fds.lowestFree := ne_of_obj w.fds _ _ (obj_lowestFree _) h0
    rw [hfds, obj_set_none_other _ _ _ hne]
    exact obj_put_same _ _ _

/-- The output block when every `open` and `dup2` succeeds: control falls through and every
descriptor other than `1` is as before. -/
theorem redirect_stdout_others (env : Env) (w : World) (out_file : Option String)
    (append : Int)
    (hopen : ∀ p fl, env.open_ok p fl = true) (hdup : ∀ a b, env.dup2_ok a b = true) :
    (redirect_stdout env w out_file append).2 = .returned ∧
    (∀ j, j ≠ STDOUT_FILENO →
      FdTable.obj (redirect_stdout env w out_file append).1.fds j = FdTable.obj w.fds j) := by
  rcases redirect_stdout_spec env w out_file append with
    ⟨hout, e⟩ | ⟨q, _, ho, _, _⟩ | ⟨q, _, _, hd, _, _⟩ |
    ⟨q, hout, _, _, h2, _, hfds, _, _⟩
  · subst hout; rw [e]; simp
  · rw [hopen] at ho; cases ho
  · rw [hdup] at hd; cases hd
  · subst hout
    refine ⟨h2, ?_⟩
    intro j hj
    rw [hfds]
    by_cases hjf : j = w.fds.lowestFree
    · subst hjf; simp
    · rw [obj_set_none_other _ _ _ hjf, obj_put_other _ STDOUT_FILENO _ _ hj,
        obj_put_other _ _ _ _ hjf]

/-- The output block when every `open` and `dup2` succeeds and descriptor `1` is open on
entry: descriptor `1` then refers to the output file. -/
theorem redirect_stdout_target (env : Env) (w : World) (out_file : Option String)
    (append : Int)
    (hopen : ∀ p fl, env.open_ok p fl = true) (hdup : ∀ a b, env.dup2_ok a b = true)
    (h1 : FdTable.obj w.fds STDOUT_FILENO ≠ none) :
    FdTable.obj (redirect_stdout env w out_file append).1.fds STDOUT_FILENO =
      (match out_file with
       | some q => some (.file q (out_flags append))
       | none => FdTable.obj w.fds STDOUT_FILENO) := by
  rcases redirect_stdout_spec env w out_file append with
    ⟨hout, e⟩ | ⟨q, _, ho, _, _⟩ | ⟨q, _, _, hd, _, _⟩ |
    ⟨q, hout, _, _, h2, _, hfds, _, _⟩
  · subst hout; rw [e]
  · rw [hopen] at ho; cases ho
  · rw [hdup] at hd; cases hd
  · subst hout
    have hne : STDOUT_FILENO ≠ w.fds.lowestFree := ne_of_obj w.fds _ _ (obj_lowestFree _) h1
    rw [hfds, obj_set_none_other _ _ _ hne]
    exact obj_put_same _ _ _

/-- The descriptor table with which the launcher arrives at `execvp` when every `open` and
`dup2` succeeds: that left by the two redirection blocks. -/
theorem exec_with_redirs_final_fds (env : Env) (w : World) (argv : Buf)
    (in_file out_file : Option String) (append : Int)
    (hopen : ∀ p fl, env.open_ok p fl = true) (hdup : ∀ a b, env.dup2_ok a b = true) :
    (exec_with_redirs env w argv in_file out_file append).1.fds =
      (redirect_stdout env (redirect_stdin env w in_file).1 out_file append).1.fds := by
  have hr1 := (redirect_stdin_others env w in_file hopen hdup).1
  have hr2 := (redirect_stdout_others env (redirect_stdin env w in_file).1 out_file append
    hopen hdup).1
  unfold exec_with_redirs
  rw [andThen_returned _ _ hr1, andThen_returned _ _ hr2]
  rcases exec_tail_spec env (redirect_stdout env (redirect_stdin env w in_file).1 out_file
    append).1 argv with ⟨_, et⟩ | ⟨_, _, et⟩ | ⟨_, _, et⟩ <;> rw [et]

/-- The launcher's standard output at `execvp`, given that descriptor `1` is open on entry
and every `open` and `dup2` succeeds: the output file when an output path is set, the
stream it had on entry otherwise. -/
theorem exec_with_redirs_stdout (env : Env) (w : World) (argv : Buf)
    (in_file out_file : Option String) (append : Int)
    (hopen : ∀ p fl, env.open_ok p fl = true) (hdup : ∀ a b, env.dup2_ok a b = true)
    (h1 : FdTable.obj w.fds STDOUT_FILENO ≠ none) :
    FdTable.obj (exec_with_redirs env w argv in_file out_file append).1.fds STDOUT_FILENO =
      (match out_file with
       | some q => some (.file q (out_flags append))
       | none => FdTable.obj w.fds STDOUT_FILENO) := by
  have hkeep := (redirect_stdin_others env w in_file hopen hdup).2 STDOUT_FILENO (by decide)
  rw [exec_with_redirs_final_fds env w argv in_file out_file append hopen hdup,
    redirect_stdout_target env _ out_file append hopen hdup (by rw [hkeep]; exact h1), hkeep]

/-- The launcher's standard input at `execvp`, given that descriptor `0` is open on entry
and every `open` and `dup2` succeeds: the input file when an input path is set, the stream
it had on entry otherwise. -/
theorem exec_with_redirs_stdin (env : Env) (w : World) (argv : Buf)
    (in_file out_file : Option String) (append : Int)
    (hopen : ∀ p fl, env.open_ok p fl = true) (hdup : ∀ a b, env.dup2_ok a b = true)
    (h0 : FdTable.obj w.fds STDIN_FILENO ≠ none) :
    FdTable.obj (exec_with_redirs env w argv in_file out_file append).1.fds STDIN_FILENO =
      (match in_file with
       | some p => some (.file p [.O_RDONLY])
       | none => FdTable.obj w.fds STDIN_FILENO) := by
  rw [exec_with_redirs_final_fds env w argv in_file out_file append hopen hdup,
    (redirect_stdout_others env _ out_file append hopen hdup).2 STDIN_FILENO (by decide),
    redirect_stdin_target env w in_file hopen hdup h0]
theorem exec_with_redirs_ne_returned (env : Env) (w : World) (argv : Buf)
    (in_file out_file : Option String) (append : Int) :
    (exec_with_redirs env w argv in_file out_file append).2 ≠ .returned := by
  obtain ⟨_, _, hshape, _⟩ := exec_with_redirs_shape env w argv in_file out_file append
  rcases hshape with ⟨h, _⟩ | ⟨h, _, _⟩ | ⟨h, _, _⟩ | ⟨h, _, _⟩ <;> rw [h] <;> simp

/-- The left child of `run_pipeline` (the first `fork` returns `0`): after the pipe wiring
it runs the launcher on the left descriptor, in a state where both pipe descriptors are
closed and descriptor `1` is the write end. -/
theorem run_pipeline_left_child (env : Env) (w : World) (left_tokens right_tokens : List String)
    (left_argv0 right_argv0 : Buf) (hpipe : env.pipe_ok = true)
    (hfork : env.fork_ret w.nforks = 0) (hdup : ∀ a b, env.dup2_ok a b = true) :
    ∃ wL, run_pipeline env w left_tokens right_tokens left_argv0 right_argv0 =
        exec_with_redirs env wL (parse_redirs left_tokens left_argv0).argv
          (parse_redirs left_tokens left_argv0).in_file
          (parse_redirs left_tokens left_argv0).out_file
          (parse_redirs left_tokens left_argv0).append ∧
      wL.fds = List.set (FdTable.put (List.set
          (FdTable.put (FdTable.put w.fds w.fds.lowestFree (some (.pipeRead w.npipes)))
            (FdTable.lowestFree (FdTable.put w.fds w.fds.lowestFree (some (.pipeRead w.npipes))))
            (some (.pipeWrite w.npipes)))
          w.fds.lowestFree none) STDOUT_FILENO (some (.pipeWrite w.npipes)))
        (FdTable.lowestFree (FdTable.put w.fds w.fds.lowestFree (some (.pipeRead w.npipes))))
        none ∧
      wL.trace = w.trace ++ (parse_redirs left_tokens left_argv0).diag.map Event.write_stderr ++
        (parse_redirs right_tokens right_argv0).diag.map Event.write_stderr ++
        [.pipe 0] ++ [.fork 0] ++ [.signal_sigint_dfl] ++ [.close w.fds.lowestFree] ++
        [.dup2 (FdTable.lowestFree (FdTable.put w.fds w.fds.lowestFree
          (some (.pipeRead w.npipes)))) STDOUT_FILENO (STDOUT_FILENO : Nat)] ++
        [.close (FdTable.lowestFree (FdTable.put w.fds w.fds.lowestFree
          (some (.pipeRead w.npipes))))] := by
  have hne := (pipe_alloc_ne w.fds (.pipeRead w.npipes)).1
  have hobj := obj_set_none_other
    (FdTable.put (FdTable.put w.fds w.fds.lowestFree (some (.pipeRead w.npipes)))
      (FdTable.lowestFree (FdTable.put w.fds w.fds.lowestFree (some (.pipeRead w.npipes))))
      (some (.pipeWrite w.npipes)))
    w.fds.lowestFree
    (FdTable.lowestFree (FdTable.put w.fds w.fds.lowestFree (some (.pipeRead w.npipes))))
    hne.symm
  rw [obj_put_same] at hobj
  refine ⟨⟨_, w.npipes + 1, w.nforks + 1,
    w.trace ++ (parse_redirs left_tokens left_argv0).diag.map Event.write_stderr ++
      (parse_redirs right_tokens right_argv0).diag.map Event.write_stderr ++
      [.pipe 0] ++ [.fork 0] ++ [.signal_sigint_dfl] ++ [.close w.fds.lowestFree] ++
      [.dup2 (FdTable.lowestFree (FdTable.put w.fds w.fds.lowestFree
        (some (.pipeRead w.npipes)))) STDOUT_FILENO (STDOUT_FILENO : Nat)] ++
      [.close (FdTable.lowestFree (FdTable.put w.fds w.fds.lowestFree
        (some (.pipeRead w.npipes))))]⟩, ?_, rfl, rfl⟩
  simp only [run_pipeline, sys_pipe, hpipe, if_true, sys_fork, hfork, lt_irrefl, if_false,
    sys_close, sys_dup2, World.log, World.logs, hobj, hdup]
  rw [andThen_not_returned _ _ (exec_with_redirs_ne_returned _ _ _ _ _ _)]

/-- The right child of `run_pipeline` (the first `fork` returns a pid, the second `0`): after
the pipe wiring it runs the launcher on the right descriptor, in a state where both pipe
descriptors are closed and descriptor `0` is the read end. -/
theorem run_pipeline_right_child (env : Env) (w : World)
    (left_tokens right_tokens : List String) (left_argv0 right_argv0 : Buf)
    (hpipe : env.pipe_ok = true) (hp1 : 0 < env.fork_ret w.nforks)
    (hfork : env.fork_ret (w.nforks + 1) = 0) (hdup : ∀ a b, env.dup2_ok a b = true) :
    ∃ wR, run_pipeline env w left_tokens right_tokens left_argv0 right_argv0 =
        exec_with_redirs env wR (parse_redirs right_tokens right_argv0).argv
          (parse_redirs right_tokens right_argv0).in_file
          (parse_redirs right_tokens right_argv0).out_file
          (parse_redirs right_tokens right_argv0).append ∧
      wR.fds = List.set (FdTable.put (List.set
          (FdTable.put (FdTable.put w.fds w.fds.lowestFree (some (.pipeRead w.npipes)))
            (FdTable.lowestFree (FdTable.put w.fds w.fds.lowestFree (some (.pipeRead w.npipes))))
            (some (.pipeWrite w.npipes)))
          (FdTable.lowestFree (FdTable.put w.fds w.fds.lowestFree (some (.pipeRead w.npipes))))
          none) STDIN_FILENO (some (.pipeRead w.npipes)))
        w.fds.lowestFree none ∧
      wR.trace = w.trace ++ (parse_redirs left_tokens left_argv0).diag.map Event.write_stderr ++
        (parse_redirs right_tokens right_argv0).diag.map Event.write_stderr ++
        [.pipe 0] ++ [.fork (env.fork_ret w.nforks)] ++ [.fork 0] ++ [.signal_sigint_dfl] ++
        [.close (FdTable.lowestFree (FdTable.put w.fds w.fds.lowestFree
          (some (.pipeRead w.npipes))))] ++
        [.dup2 w.fds.lowestFree STDIN_FILENO (STDIN_FILENO : Nat)] ++
        [.close w.fds.lowestFree] := by
  have hne := (pipe_alloc_ne w.fds (.pipeRead w.npipes)).1
  have hobj := obj_set_none_other
    (FdTable.put (FdTable.put w.fds w.fds.lowestFree (some (.pipeRead w.npipes)))
      (FdTable.lowestFree (FdTable.put w.fds w.fds.lowestFree (some (.pipeRead w.npipes))))
      (some (.pipeWrite w.npipes)))
    (FdTable.lowestFree (FdTable.put w.fds w.fds.lowestFree (some (.pipeRead w.npipes))))
    w.fds.lowestFree hne
  rw [obj_put_other _ _ _ _ hne, obj_put_same] at hobj
  have h1 : ¬ env.fork_ret w.nforks < 0 := by omega
  have h2 : ¬ env.fork_ret w.nforks = 0 := by omega
  refine ⟨⟨_, w.npipes + 1, w.nforks + 1 + 1,
    w.trace ++ (parse_redirs left_tokens left_argv0).diag.map Event.write_stderr ++
      (parse_redirs right_tokens right_argv0).diag.map Event.write_stderr ++
      [.pipe 0] ++ [.fork (env.fork_ret w.nforks)] ++ [.fork 0] ++ [.signal_sigint_dfl] ++
      [.close (FdTable.lowestFree (FdTable.put w.fds w.fds.lowestFree
        (some (.pipeRead w.npipes))))] ++
      [.dup2 w.fds.lowestFree STDIN_FILENO (STDIN_FILENO : Nat)] ++
      [.close w.fds.lowestFree]⟩, ?_, rfl, rfl⟩
  simp only [run_pipeline, sys_pipe, hpipe, if_true, sys_fork, hfork, lt_irrefl, if_false,
    sys_close, sys_dup2, World.log, World.logs, hobj, hdup, h1, h2, andThen_pair]
  rw [andThen_not_returned _ _ (exec_with_redirs_ne_returned _ _ _ _ _ _)]

/-- C8: in `run_pipeline` the pipe wiring comes first and the explicit redirection second,
so the explicit redirection wins.  With the standard input open on entry (as it is whenever
`main` has read a line) and every `pipe`, `open` and `dup2` succeeding: the left child
reaches `execvp` after the wiring calls, with descriptor `1` on the left command's output file
when an output path is set and on the pipe's write end otherwise; the right child reaches
`execvp` with descriptor `0` on the right command's input file when an input path is set and
on the pipe's read end otherwise. -/
theorem explicit_redirection_overrides_pipe (env : Env) (w : World)
    (left_tokens right_tokens : List String) (left_argv0 right_argv0 : Buf)
    (hpipe : env.pipe_ok = true)
    (hopen : ∀ p fl, env.open_ok p fl = true) (hdup : ∀ a b, env.dup2_ok a b = true)
    (h0 : FdTable.obj w.fds STDIN_FILENO ≠ none) :
    (env.fork_ret w.nforks = 0 →
      (∃ evs, newEvents w
          (run_pipeline env w left_tokens right_tokens left_argv0 right_argv0).1 =
        (parse_redirs left_tokens left_argv0).diag.map Event.write_stderr ++
        (parse_redirs right_tokens right_argv0).diag.map Event.write_stderr ++
        [.pipe 0, .fork 0, .signal_sigint_dfl, .close w.fds.lowestFree,
         .dup2 (FdTable.lowestFree (FdTable.put w.fds w.fds.lowestFree
            (some (.pipeRead w.npipes)))) STDOUT_FILENO (STDOUT_FILENO : Nat),
         .close (FdTable.lowestFree (FdTable.put w.fds w.fds.lowestFree
            (some (.pipeRead w.npipes))))] ++ evs ∧
        Event.execvp ((parse_redirs left_tokens left_argv0).argv.at 0)
          (cstrs (parse_redirs left_tokens left_argv0).argv) ∈ evs) ∧
      FdTable.obj (run_pipeline env w left_tokens right_tokens left_argv0 right_argv0).1.fds
          STDOUT_FILENO =
        (match (parse_redirs left_tokens left_argv0).out_file with
         | some q => some (.file q (out_flags (parse_redirs left_tokens left_argv0).append))
         | none => some (.pipeWrite w.npipes))) ∧
    (0 < env.fork_ret w.nforks → env.fork_ret (w.nforks + 1) = 0 →
      (∃ evs, newEvents w
          (run_pipeline env w left_tokens right_tokens left_argv0 right_argv0).1 =
        (parse_redirs left_tokens left_argv0).diag.map Event.write_stderr ++
        (parse_redirs right_tokens right_argv0).diag.map Event.write_stderr ++
        [.pipe 0, .fork (env.fork_ret w.nforks), .fork 0, .signal_sigint_dfl,
         .close (FdTable.lowestFree (FdTable.put w.fds w.fds.lowestFree
            (some (.pipeRead w.npipes)))),
         .dup2 w.fds.lowestFree STDIN_FILENO (STDIN_FILENO : Nat),
         .close w.fds.lowestFree] ++ evs ∧
        Event.execvp ((parse_redirs right_tokens right_argv0).argv.at 0)
          (cstrs (parse_redirs right_tokens right_argv0).argv) ∈ evs) ∧
      FdTable.obj (run_pipeline env w left_tokens right_tokens left_argv0 right_argv0).1.fds
          STDIN_FILENO =
        (match (parse_redirs right_tokens right_argv0).in_file with
         | some p => some (.file p [.O_RDONLY])
         | none => some (.pipeRead w.npipes))) := by
  obtain ⟨h0r, _, h1w⟩ := pipe_alloc_stdin w.fds (.pipeRead w.npipes) h0
  constructor
  · intro hfork
    obtain ⟨wL, hE, hfds, htr⟩ := run_pipeline_left_child env w left_tokens right_tokens
      left_argv0 right_argv0 hpipe hfork hdup
    have hL1 : FdTable.obj wL.fds STDOUT_FILENO = some (.pipeWrite w.npipes) := by
      rw [hfds, obj_set_none_other _ _ _ h1w, obj_put_same]
    have hL1' : FdTable.obj wL.fds STDOUT_FILENO ≠ none := by rw [hL1]; simp
    obtain ⟨evs, hev, _, _, _, _, hreach⟩ := exec_with_redirs_shape env wL
      (parse_redirs left_tokens left_argv0).argv (parse_redirs left_tokens left_argv0).in_file
      (parse_redirs left_tokens left_argv0).out_file (parse_redirs left_tokens left_argv0).append
    have hf := exec_with_redirs_stdout env wL (parse_redirs left_tokens left_argv0).argv
      (parse_redirs left_tokens left_argv0).in_file (parse_redirs left_tokens left_argv0).out_file
      (parse_redirs left_tokens left_argv0).append hopen hdup hL1'
    rw [hE]
    refine ⟨⟨evs, ?_, hreach hopen hdup⟩, ?_⟩
    · apply newEvents_of_trace
      rw [hev, htr]
      simp [List.append_assoc]
    · revert hf
      cases (parse_redirs left_tokens left_argv0).out_file with
      | none => intro hf; exact hf.trans hL1
      | some q => intro hf; exact hf
  · intro hp1 hfork
    obtain ⟨wR, hE, hfds, htr⟩ := run_pipeline_right_child env w left_tokens right_tokens
      left_argv0 right_argv0 hpipe hp1 hfork hdup
    have hR0 : FdTable.obj wR.fds STDIN_FILENO = some (.pipeRead w.npipes) := by
      rw [hfds, obj_set_none_other _ _ _ h0r, obj_put_same]
    have hR0' : FdTable.obj wR.fds STDIN_FILENO ≠ none := by rw [hR0]; simp
    obtain ⟨evs, hev, _, _, _, _, hreach⟩ := exec_with_redirs_shape env wR
      (parse_redirs right_tokens right_argv0).argv
      (parse_redirs right_tokens right_argv0).in_file
      (parse_redirs right_tokens right_argv0).out_file
      (parse_redirs right_tokens right_argv0).append
    have hf := exec_with_redirs_stdin env wR (parse_redirs right_tokens right_argv0).argv
      (parse_redirs right_tokens right_argv0).in_file
      (parse_redirs right_tokens right_argv0).out_file
      (parse_redirs right_tokens right_argv0).append hopen hdup hR0'
    rw [hE]
    refine ⟨⟨evs, ?_, hreach hopen hdup⟩, ?_⟩
    · apply newEvents_of_trace
      rw [hev, htr]
      simp [List.append_assoc]
    · revert hf
      cases (parse_redirs right_tokens right_argv0).in_file with
      | none => intro hf; exact hf.trans hR0
      | some p => intro hf; exact hf
set_option maxRecDepth 20000 in
/-- Witness for C8: in `ls > out | wc` the left child's standard output is the file `out`,
not the pipe. -/
theorem explicit_redirection_overrides_pipe_witness :
    FdTable.obj (run_pipeline leftChildEnv demoWorld ["ls", ">", "out"] ["wc"]
      demoArgv demoArgv).1.fds STDOUT_FILENO =
      some (.file "out" [.O_WRONLY, .O_CREAT, .O_TRUNC]) := by
  have h := (explicit_redirection_overrides_pipe leftChildEnv demoWorld ["ls", ">", "out"]
    ["wc"] demoArgv demoArgv rfl (fun _ _ => rfl) (fun _ _ => rfl) (by decide)).1 rfl
  rw [h.2]; decide

/-- C9, checked on the code: when `pipe` succeeds and a call of `fork` fails (the first, or
the second after the first succeeded), `run_pipeline` returns to the input loop without a
single `close`: in the interpreter both `pipefd[0]` and `pipefd[1]` still refer to the two
ends of the pipe. -/
theorem run_pipeline_fork_failure_leaks_pipe (env : Env) (w : World)
    (left_tokens right_tokens : List String) (left_argv0 right_argv0 : Buf)
    (hpipe : env.pipe_ok = true)
    (hfail : env.fork_ret w.nforks < 0 ∨
      (0 < env.fork_ret w.nforks ∧ env.fork_ret (w.nforks + 1) < 0)) :
    (run_pipeline env w left_tokens right_tokens left_argv0 right_argv0).2 = .returned ∧
    FdTable.obj (run_pipeline env w left_tokens right_tokens left_argv0 right_argv0).1.fds
      w.fds.lowestFree = some (.pipeRead w.npipes) ∧
    FdTable.obj (run_pipeline env w left_tokens right_tokens left_argv0 right_argv0).1.fds
      (FdTable.lowestFree (FdTable.put w.fds w.fds.lowestFree (some (.pipeRead w.npipes)))) =
      some (.pipeWrite w.npipes) ∧
    (∀ fd, Event.close fd ∉
      newEvents w (run_pipeline env w left_tokens right_tokens left_argv0 right_argv0).1) := by
  have hne := (pipe_alloc_ne w.fds (.pipeRead w.npipes)).1
  have hrd : FdTable.obj (FdTable.put (FdTable.put w.fds w.fds.lowestFree
      (some (.pipeRead w.npipes)))
      (FdTable.lowestFree (FdTable.put w.fds w.fds.lowestFree (some (.pipeRead w.npipes))))
      (some (.pipeWrite w.npipes))) w.fds.lowestFree = some (.pipeRead w.npipes) := by
    rw [obj_put_other _ _ _ _ hne, obj_put_same]
  rcases hfail with h1 | ⟨h1, h2⟩
  · simp [run_pipeline, sys_pipe, hpipe, sys_fork, h1, World.log, World.logs, newEvents, hrd]
  · have h1a : ¬ env.fork_ret w.nforks < 0 := by omega
    have h1b : ¬ env.fork_ret w.nforks = 0 := by omega
    simp [run_pipeline, sys_pipe, hpipe, sys_fork, h1a, h1b, h2, World.log, World.logs,
      newEvents, hrd, andThen_pair]

set_option maxRecDepth 20000 in
/-- Witness for C9: `ls | wc` with `fork` failing leaves descriptors `3` and `4`, the two ends
of the pipe, open in the interpreter. -/
theorem run_pipeline_fork_failure_leaks_pipe_witness :
    (run_pipeline forkFailEnv demoWorld ["ls"] ["wc"] demoArgv demoArgv).1.fds =
      [some (.inherited 0), some (.inherited 1), some (.inherited 2),
       some (.pipeRead 0), some (.pipeWrite 0)] ∧
    FdTable.obj (run_pipeline forkFailEnv demoWorld ["ls"] ["wc"] demoArgv demoArgv).1.fds 3 =
      some (.pipeRead 0) := by
  have h := run_pipeline_fork_failure_leaks_pipe forkFailEnv demoWorld ["ls"] ["wc"]
    demoArgv demoArgv rfl (Or.inl (by decide))
  exact ⟨by decide, h.2.1⟩
/-! ## Claims about `run_single` and the order of the two passes -/

theorem at_set_same (b : Buf) (i : Nat) (x : Option String) (h : i < b.length) :
    Buf.at (b.set i x) i = x := by
  simp [Buf.at, List.getElem?_set, h]

theorem at_set_other (b : Buf) (i j : Nat) (x : Option String) (h : j ≠ i) :
    Buf.at (b.set i x) j = Buf.at b j := by
  simp [Buf.at, List.getElem?_set, Ne.symm h]

/-- The loop of `parse_redirs` never touches the slots below the current argument index. -/
theorem parse_loop_preserves_below (toks : List String) (ai : Nat) (r : Redirs) :
    ∀ j, j < ai → Buf.at (parse_loop toks ai r).argv j = Buf.at r.argv j := by
  induction toks, ai, r using parse_loop.induct with
  | case1 ai r =>
    intro j hj
    simp only [parse_loop]
    exact at_set_other _ _ _ _ (by omega)
  | case2 t ai r ht => intro j _; simp [parse_loop, ht]
  | case3 t ai r ht f rest2 ih =>
    intro j hj
    simp only [parse_loop, if_pos ht]
    exact ih j hj
  | case4 ai r _ => intro j _; simp [parse_loop]
  | case5 ai r f rest2 hn ih =>
    intro j hj
    simp only [parse_loop, if_neg hn, if_true]
    exact ih j hj
  | case6 rest ai r hn hn2 ih =>
    intro j hj
    have e : parse_loop ("&" :: rest) ai r = parse_loop rest ai r := by
      rw [parse_loop.eq_def]; simp
    rw [e]
    exact ih j hj
  | case7 t rest ai r h1 h2 h3 ih =>
    intro j hj
    have e : parse_loop (t :: rest) ai r =
        parse_loop rest (ai + 1) { r with argv := r.argv.set ai (some t) } := by
      have h1a : ¬ t = ">" := fun hc => h1 (Or.inl hc)
      have h1b : ¬ t = ">>" := fun hc => h1 (Or.inr hc)
      rw [parse_loop.eq_def]; simp [h1a, h1b, h2, h3]
    rw [e, ih j (by omega)]
    exact at_set_other _ _ _ _ (by omega)

/-- A first token that is not an operator is stored in `argv[0]`, whatever follows. -/
theorem parse_redirs_head (t : String) (rest : List String) (argv0 : Buf)
    (ht : isOperator t = false) (hbuf : 0 < argv0.length) :
    Buf.at (parse_redirs (t :: rest) argv0).argv 0 = some t := by
  simp only [isOperator, isRedirOp, Bool.or_eq_false_iff, beq_eq_false_iff_ne, ne_eq] at ht
  obtain ⟨⟨⟨h1, h2⟩, h3⟩, h4⟩ := ht
  have e : parse_redirs (t :: rest) argv0 = parse_loop rest 1
      { argv := argv0.set 0 (some t), in_file := none, out_file := none, append := 0,
        diag := [] } := by
    unfold parse_redirs
    rw [parse_loop.eq_def]; simp [h1, h2, h3, h4]
  rw [e, parse_loop_preserves_below _ _ _ 0 (by omega)]
  exact at_set_same _ _ _ hbuf

/-- C6: whenever the argument vector left by `parse_redirs` begins with `exit`, `run_single`
ends the interpreter with status 0; between entry and `exit(0)` it makes no call other than
writing the diagnostics of `parse_redirs` to `stderr`: no `fork`, `open`, `dup2`, `chdir` or
`waitpid`, and the descriptor table is untouched. -/
theorem run_single_exit_first (env : Env) (w : World) (tokens : List String) (argv0 : Buf)
    (h : (parse_redirs (is_background tokens).2 argv0).argv.at 0 = some "exit") :
    (run_single env w tokens argv0).2 = .exited 0 ∧
    newEvents w (run_single env w tokens argv0).1 =
      (parse_redirs (is_background tokens).2 argv0).diag.map Event.write_stderr ++
        [.exit_call 0] ∧
    (∀ e ∈ newEvents w (run_single env w tokens argv0).1, e.isEffect = false) ∧
    (run_single env w tokens argv0).1.fds = w.fds ∧
    (run_single env w tokens argv0).1.nforks = w.nforks := by
  have hev : newEvents w (run_single env w tokens argv0).1 =
      (parse_redirs (is_background tokens).2 argv0).diag.map Event.write_stderr ++
        [.exit_call 0] := by
    simp [run_single, h, World.log, World.logs, newEvents]
  refine ⟨?_, hev, ?_, ?_, ?_⟩
  · simp [run_single, h]
  · intro e he
    rw [hev] at he
    simp only [List.mem_append, List.mem_map, List.mem_singleton] at he
    rcases he with ⟨s, _, rfl⟩ | rfl <;> rfl
  · simp [run_single, h, World.log, World.logs]
  · simp [run_single, h, World.log, World.logs]

set_option maxRecDepth 20000 in
/-- Witness for C6: `exit now > f &` ends the interpreter with status 0 and `exit > ` does
so after the syntax diagnostic. -/
theorem run_single_exit_first_witness :
    (run_single demoEnv demoWorld ["exit", "now", ">", "f", "&"] demoArgv).2 = .exited 0 ∧
    newEvents demoWorld (run_single demoEnv demoWorld ["exit", ">"] demoArgv).1 =
      [.write_stderr "syntax error: expected filename after '>'\n", .exit_call 0] := by
  have h1 := run_single_exit_first demoEnv demoWorld ["exit", "now", ">", "f", "&"] demoArgv
    (by decide)
  have h2 := run_single_exit_first demoEnv demoWorld ["exit", ">"] demoArgv (by decide)
  refine ⟨h1.1, ?_⟩
  rw [h2.2.1]; decide

/-- C1, checked on the code: for the line `ls >` the syntax error is reported and the line
is run all the same: with `argv[0]` already stored, `run_single` goes on to `fork` and, in the
parent, waits for the child; for the line `exit >` the builtin `exit` is executed. -/
theorem run_single_forks_after_syntax_error (env : Env) (w : World) (argv0 : Buf)
    (hbuf : argv0.length = MAX_TOKENS) (hpid : 0 < env.fork_ret w.nforks) :
    (parse_redirs ["ls", ">"] argv0).diag =
      ["syntax error: expected filename after '>'\n"] ∧
    newEvents w (run_single env w ["ls", ">"] argv0).1 =
      [.write_stderr "syntax error: expected filename after '>'\n",
       .fork (env.fork_ret w.nforks), .waitpid (env.fork_ret w.nforks)] ∧
    (run_single env w ["exit", ">"] argv0).2 = .exited 0 := by
  have hlen : 0 < argv0.length := by rw [hbuf]; decide
  have hb1 : is_background ["ls", ">"] = (0, ["ls", ">"]) := by decide
  have hb2 : is_background ["exit", ">"] = (0, ["exit", ">"]) := by decide
  have hd : (parse_redirs ["ls", ">"] argv0).diag =
      ["syntax error: expected filename after '>'\n"] := by
    simp [parse_redirs, parse_loop]
  have h0 : Buf.at (parse_redirs (is_background ["ls", ">"]).2 argv0).argv 0 = some "ls" := by
    rw [hb1]; exact parse_redirs_head "ls" [">"] argv0 (by decide) hlen
  have h1 : Buf.at (parse_redirs (is_background ["exit", ">"]).2 argv0).argv 0 =
      some "exit" := by
    rw [hb2]; exact parse_redirs_head "exit" [">"] argv0 (by decide) hlen
  obtain ⟨_, hev⟩ := run_single_parent env w ["ls", ">"] argv0 "ls" h0 (by decide)
    (by decide) hpid
  refine ⟨hd, ?_, ?_⟩
  · rw [hev, hb1]
    simp only [hd]
    simp
  · simp [run_single, h1]

set_option maxRecDepth 20000 in
/-- Witness for C1: the trace of `ls >` in the sample environment. -/
theorem run_single_forks_after_syntax_error_witness :
    newEvents demoWorld (run_single demoEnv demoWorld ["ls", ">"] demoArgv).1 =
      [.write_stderr "syntax error: expected filename after '>'\n", .fork 100,
       .waitpid 100] := by
  have h := run_single_forks_after_syntax_error demoEnv demoWorld demoArgv (by decide)
    (by decide)
  exact h.2.1
/-- Once `argv[0]` is a command other than `exit` and `cd`, `run_single` calls `fork` right
after the diagnostics of `parse_redirs`, in every process and whatever `fork` returns. -/
theorem run_single_reaches_fork (env : Env) (w : World) (tokens : List String) (argv0 : Buf)
    (a0 : String)
    (h0 : (parse_redirs (is_background tokens).2 argv0).argv.at 0 = some a0)
    (hexit : a0 ≠ "exit") (hcd : a0 ≠ "cd") :
    ∃ evs, newEvents w (run_single env w tokens argv0).1 =
      (parse_redirs (is_background tokens).2 argv0).diag.map Event.write_stderr ++
        .fork (env.fork_ret w.nforks) :: evs := by
  by_cases hneg : env.fork_ret w.nforks < 0
  · refine ⟨[.perror "fork"], ?_⟩
    simp [run_single, h0, hexit, hcd, sys_fork, World.logs, World.log, hneg, newEvents]
  · by_cases hz : env.fork_ret w.nforks = 0
    · have E : run_single env w tokens argv0 = exec_with_redirs env
          { fds := w.fds, npipes := w.npipes, nforks := w.nforks + 1,
            trace := w.trace ++ (parse_redirs (is_background tokens).2 argv0).diag.map
              Event.write_stderr ++ [.fork 0] ++ [.signal_sigint_dfl] }
          (parse_redirs (is_background tokens).2 argv0).argv
          (parse_redirs (is_background tokens).2 argv0).in_file
          (parse_redirs (is_background tokens).2 argv0).out_file
          (parse_redirs (is_background tokens).2 argv0).append := by
        simp only [run_single, h0, hexit, hcd, if_false, sys_fork, World.logs, World.log, hz,
          lt_irrefl, if_true]
        rw [andThen_not_returned _ _ (exec_with_redirs_ne_returned _ _ _ _ _ _)]
      obtain ⟨evs, hev, _⟩ := exec_with_redirs_shape env
        { fds := w.fds, npipes := w.npipes, nforks := w.nforks + 1,
          trace := w.trace ++ (parse_redirs (is_background tokens).2 argv0).diag.map
            Event.write_stderr ++ [.fork 0] ++ [.signal_sigint_dfl] }
        (parse_redirs (is_background tokens).2 argv0).argv
        (parse_redirs (is_background tokens).2 argv0).in_file
        (parse_redirs (is_background tokens).2 argv0).out_file
        (parse_redirs (is_background tokens).2 argv0).append
      refine ⟨.signal_sigint_dfl :: evs, ?_⟩
      apply newEvents_of_trace
      rw [E, hev, hz]
      simp
    · have hpid : 0 < env.fork_ret w.nforks := by omega
      obtain ⟨_, hev⟩ := run_single_parent env w tokens argv0 a0 h0 hexit hcd hpid
      exact ⟨_, hev⟩

/-- Plain tokens followed by `>` and `<`: the scan ends without a diagnostic, with the
output path `<` in truncate mode and the input path as before. -/
theorem parse_loop_plain_then_gt_lt (args : List String)
    (hargs : ∀ a ∈ args, isRedirOp a = false) : ∀ (ai : Nat) (r : Redirs),
    (parse_loop (args ++ [">", "<"]) ai r).diag = r.diag ∧
    (parse_loop (args ++ [">", "<"]) ai r).out_file = some "<" ∧
    (parse_loop (args ++ [">", "<"]) ai r).append = 0 ∧
    (parse_loop (args ++ [">", "<"]) ai r).in_file = r.in_file := by
  induction args with
  | nil => intro ai r; simp [parse_loop, secondIsGt]
  | cons a args ih =>
    intro ai r
    have ha := hargs a (by simp)
    simp only [isRedirOp, Bool.or_eq_false_iff, beq_eq_false_iff_ne, ne_eq] at ha
    obtain ⟨⟨h1, h2⟩, h3⟩ := ha
    have ih' := ih (fun b hb => hargs b (by simp [hb]))
    by_cases h4 : a = "&"
    · have e : parse_loop (a :: args ++ [">", "<"]) ai r =
          parse_loop (args ++ [">", "<"]) ai r := by
        subst h4
        rw [List.cons_append, parse_loop.eq_def]; simp
      rw [e]; exact ih' ai r
    · have e : parse_loop (a :: args ++ [">", "<"]) ai r =
          parse_loop (args ++ [">", "<"]) (ai + 1)
            { r with argv := r.argv.set ai (some a) } := by
        rw [List.cons_append, parse_loop.eq_def]; simp [h1, h2, h3, h4]
      rw [e]; exact ih' (ai + 1) _

/-- C2 as the code has it: in `cmd args... > <`, where `cmd` is a command name other than
`exit` and `cd` and no argument is a redirection operator, the final `<` is consumed as the
path of `>`: no syntax error is reported, the output path is `<` in truncate mode, no input
path is set, and `run_single` goes on to create a process (its first call is `fork`). -/
theorem lt_after_gt_is_output_path (env : Env) (w : World) (cmd : String)
    (args : List String) (argv0 : Buf)
    (hcmd : isOperator cmd = false) (hexit : cmd ≠ "exit") (hcd : cmd ≠ "cd")
    (hargs : ∀ a ∈ args, isRedirOp a = false) (hbuf : 0 < argv0.length) :
    (parse_redirs (cmd :: args ++ [">", "<"]) argv0).diag = [] ∧
    (parse_redirs (cmd :: args ++ [">", "<"]) argv0).out_file = some "<" ∧
    (parse_redirs (cmd :: args ++ [">", "<"]) argv0).append = 0 ∧
    (parse_redirs (cmd :: args ++ [">", "<"]) argv0).in_file = none ∧
    ∃ evs, newEvents w (run_single env w (cmd :: args ++ [">", "<"]) argv0).1 =
      .fork (env.fork_ret w.nforks) :: evs := by
  have hcmd' := hcmd
  simp only [isOperator, isRedirOp, Bool.or_eq_false_iff, beq_eq_false_iff_ne, ne_eq] at hcmd'
  obtain ⟨⟨⟨h1, h2⟩, h3⟩, h4⟩ := hcmd'
  have e : parse_redirs (cmd :: args ++ [">", "<"]) argv0 =
      parse_loop (args ++ [">", "<"]) 1
        { argv := argv0.set 0 (some cmd), in_file := none, out_file := none, append := 0,
          diag := [] } := by
    unfold parse_redirs
    rw [List.cons_append, parse_loop.eq_def]; simp [h1, h2, h3, h4]
  obtain ⟨hd, ho, ha, hi⟩ := parse_loop_plain_then_gt_lt args hargs 1
    { argv := argv0.set 0 (some cmd), in_file := none, out_file := none, append := 0,
      diag := [] }
  have hlast : (cmd :: args ++ [">", "<"]).getLast? = some "<" := by
    rw [show cmd :: args ++ [">", "<"] = (cmd :: args ++ [">"]) ++ ["<"] by simp]
    exact List.getLast?_concat _
  have hb : is_background (cmd :: args ++ [">", "<"]) = (0, cmd :: args ++ [">", "<"]) :=
    is_background_flag_none _ (by rw [hlast]; decide)
  have h0 : Buf.at (parse_redirs (is_background (cmd :: args ++ [">", "<"])).2 argv0).argv 0 =
      some cmd := by
    rw [hb]; exact parse_redirs_head cmd (args ++ [">", "<"]) argv0 hcmd hbuf
  obtain ⟨evs, hev⟩ := run_single_reaches_fork env w (cmd :: args ++ [">", "<"]) argv0 cmd
    h0 hexit hcd
  rw [hb] at hev
  rw [e]
  refine ⟨hd, ho, ha, hi, evs, ?_⟩
  rw [hev, e, hd]
  rfl

set_option maxRecDepth 20000 in
/-- Witness for C2 as the code has it: `sort -r > <`. -/
theorem lt_after_gt_is_output_path_witness :
    (parse_redirs ["sort", "-r", ">", "<"] demoArgv).out_file = some "<" ∧
    (parse_redirs ["sort", "-r", ">", "<"] demoArgv).diag = [] := by
  have h := lt_after_gt_is_output_path demoEnv demoWorld "sort" ["-r"] demoArgv (by decide)
    (by decide) (by decide) (by decide) (by decide)
  exact ⟨h.2.1, h.1⟩

set_option maxRecDepth 20000 in
/-- C2 fails on the code: for `cmd > <` no syntax error is reported (the token `<` becomes
the output path) and a process is created. -/
theorem gt_lt_reports_no_error_and_forks :
    (parse_redirs ["cmd", ">", "<"] demoArgv).diag = [] ∧
    (parse_redirs ["cmd", ">", "<"] demoArgv).out_file = some "<" ∧
    newEvents demoWorld (run_single demoEnv demoWorld ["cmd", ">", "<"] demoArgv).1 =
      [.fork 100, .waitpid 100] ∧
    newEvents demoWorld (run_single leftChildEnv demoWorld ["cmd", ">", "<"] demoArgv).1 =
      [.fork 0, .signal_sigint_dfl,
       .open_call "<" [.O_WRONLY, .O_CREAT, .O_TRUNC] (some 0o644) 3,
       .dup2 3 1 1, .close 3, .execvp (some "cmd") ["cmd"], .perror "execvp",
       .exit_call 127] := by
  decide

set_option maxRecDepth 20000 in
/-- C4, checked on the code: in `a | b > &`, `run_pipeline` builds the right descriptor
before it looks for the trailing `&`, so `&` is taken as the output path and no syntax error
is reported, while the same tokens without the trailing `&` are a syntax error with no output
path; the background flag is set all the same, and the right child opens the file `&`. -/
theorem run_pipeline_takes_amp_as_path :
    is_background ["b", ">", "&"] = (1, ["b", ">"]) ∧
    (parse_redirs ["b", ">"] demoArgv).out_file = none ∧
    (parse_redirs ["b", ">"] demoArgv).diag =
      ["syntax error: expected filename after '>'\n"] ∧
    newEvents demoWorld
        (run_pipeline demoEnv demoWorld ["a"] ["b", ">", "&"] demoArgv demoArgv).1 =
      [.pipe 0, .fork 100, .fork 101, .close 3, .close 4,
       .write_stdout "[bg] p1=100 p2=101\n"] ∧
    newEvents demoWorld
        (run_pipeline rightChildEnv demoWorld ["a"] ["b", ">", "&"] demoArgv demoArgv).1 =
      [.pipe 0, .fork 100, .fork 0, .signal_sigint_dfl, .close 4, .dup2 3 0 0, .close 3,
       .open_call "&" [.O_WRONLY, .O_CREAT, .O_TRUNC] (some 0o644) 3, .dup2 3 1 1, .close 3,
       .execvp (some "b") ["b"], .perror "execvp", .exit_call 127] ∧
    newEvents demoWorld (run_single demoEnv demoWorld ["b", ">", "&"] demoArgv).1 =
      [.write_stderr "syntax error: expected filename after '>'\n", .fork 100,
       .write_stdout "[bg] pid=100\n"] := by
  decide

/-! ## A pipeline side without a command -/

/-- With no tokens, `parse_redirs` stores only the terminating `NULL`: `argv[0]` is `NULL`,
no path is set and nothing is reported. -/
theorem parse_redirs_nil (argv0 : Buf) :
    Buf.at (parse_redirs [] argv0).argv 0 = none ∧
    cstrs (parse_redirs [] argv0).argv = [] ∧
    (parse_redirs [] argv0).in_file = none ∧
    (parse_redirs [] argv0).out_file = none ∧
    (parse_redirs [] argv0).diag = [] := by
  cases argv0 with
  | nil => simp [parse_redirs, parse_loop, Buf.at, cstrs]
  | cons a rest => simp [parse_redirs, parse_loop, Buf.at, cstrs]

/-- The launcher on a vector whose `argv[0]` is `NULL`, without redirection: the only call
is `execvp(NULL, argv)`, in which the process is killed. -/
theorem exec_with_redirs_null_command (env : Env) (w : World) (argv : Buf) (append : Int)
    (h0 : Buf.at argv 0 = none) :
    exec_with_redirs env w argv none none append =
      ({ w with trace := w.trace ++ [.execvp none (cstrs argv)] }, .killed SIGSEGV) := by
  have E : exec_with_redirs env w argv none none append = exec_tail env w argv := by
    unfold exec_with_redirs
    rw [show redirect_stdin env w none = (w, .returned) from rfl, andThen_pair,
      show redirect_stdout env w none append = (w, .returned) from rfl, andThen_pair]
  rw [E]
  rcases exec_tail_spec env w argv with ⟨_, et⟩ | ⟨h, _⟩ | ⟨h, _⟩
  · rw [et, h0]
  · exact absurd h0 h
  · exact absurd h0 h

/-- C7, checked on the code: `run_pipeline` has no test of `argv[0]` (the one `run_single`
makes at line 108), so a pipeline side without a command, as the right side of `echo hi |`
or the left side of `| wc`, reaches the launcher with `argv[0] = NULL`.  The child calls
`execvp(NULL, argv)` and is killed by `SIGSEGV` inside the call: program replacement has not
happened, yet there is no `perror("execvp")`, no `_exit(127)` and no exit status at all. -/
theorem exec_with_redirs_killed_on_empty_side (env : Env) (w : World)
    (left_tokens right_tokens : List String) (left_argv0 right_argv0 : Buf)
    (hpipe : env.pipe_ok = true) (hdup : ∀ a b, env.dup2_ok a b = true) :
    (0 < env.fork_ret w.nforks → env.fork_ret (w.nforks + 1) = 0 → right_tokens = [] →
      (run_pipeline env w left_tokens right_tokens left_argv0 right_argv0).2 =
        .killed SIGSEGV ∧
      Event.execvp none [] ∈ newEvents w
        (run_pipeline env w left_tokens right_tokens left_argv0 right_argv0).1 ∧
      (∀ st, Event.exit_call st ∉ newEvents w
        (run_pipeline env w left_tokens right_tokens left_argv0 right_argv0).1) ∧
      Event.perror "execvp" ∉ newEvents w
        (run_pipeline env w left_tokens right_tokens left_argv0 right_argv0).1) ∧
    (env.fork_ret w.nforks = 0 → left_tokens = [] →
      (run_pipeline env w left_tokens right_tokens left_argv0 right_argv0).2 =
        .killed SIGSEGV ∧
      Event.execvp none [] ∈ newEvents w
        (run_pipeline env w left_tokens right_tokens left_argv0 right_argv0).1 ∧
      (∀ st, Event.exit_call st ∉ newEvents w
        (run_pipeline env w left_tokens right_tokens left_argv0 right_argv0).1) ∧
      Event.perror "execvp" ∉ newEvents w
        (run_pipeline env w left_tokens right_tokens left_argv0 right_argv0).1) := by
  constructor
  · intro hp1 hfork hnil
    subst hnil
    obtain ⟨wR, hE, _, htr⟩ := run_pipeline_right_child env w left_tokens [] left_argv0
      right_argv0 hpipe hp1 hfork hdup
    obtain ⟨h0, hc, hi, ho, _⟩ := parse_redirs_nil right_argv0
    rw [hi, ho, exec_with_redirs_null_command env wR _ _ h0, hc] at hE
    have hev : newEvents w (run_pipeline env w left_tokens [] left_argv0 right_argv0).1 =
        (parse_redirs left_tokens left_argv0).diag.map Event.write_stderr ++
        (parse_redirs [] right_argv0).diag.map Event.write_stderr ++
        [.pipe 0, .fork (env.fork_ret w.nforks), .fork 0, .signal_sigint_dfl,
         .close (FdTable.lowestFree (FdTable.put w.fds w.fds.lowestFree
            (some (.pipeRead w.npipes)))),
         .dup2 w.fds.lowestFree STDIN_FILENO (STDIN_FILENO : Nat),
         .close w.fds.lowestFree, .execvp none []] := by
      apply newEvents_of_trace
      rw [hE]
      simp only [htr]
      simp [List.append_assoc]
    rw [hev]
    refine ⟨by rw [hE], by simp, ?_, by simp⟩
    intro st
    simp
  · intro hfork hnil
    subst hnil
    obtain ⟨wL, hE, _, htr⟩ := run_pipeline_left_child env w [] right_tokens left_argv0
      right_argv0 hpipe hfork hdup
    obtain ⟨h0, hc, hi, ho, _⟩ := parse_redirs_nil left_argv0
    rw [hi, ho, exec_with_redirs_null_command env wL _ _ h0, hc] at hE
    have hev : newEvents w (run_pipeline env w [] right_tokens left_argv0 right_argv0).1 =
        (parse_redirs [] left_argv0).diag.map Event.write_stderr ++
        (parse_redirs right_tokens right_argv0).diag.map Event.write_stderr ++
        [.pipe 0, .fork 0, .signal_sigint_dfl, .close w.fds.lowestFree,
         .dup2 (FdTable.lowestFree (FdTable.put w.fds w.fds.lowestFree
            (some (.pipeRead w.npipes)))) STDOUT_FILENO (STDOUT_FILENO : Nat),
         .close (FdTable.lowestFree (FdTable.put w.fds w.fds.lowestFree
            (some (.pipeRead w.npipes)))), .execvp none []] := by
      apply newEvents_of_trace
      rw [hE]
      simp only [htr]
      simp [List.append_assoc]
    rw [hev]
    refine ⟨by rw [hE], by simp, ?_, by simp⟩
    intro st
    simp

set_option maxRecDepth 20000 in
/-- Witness for C7: the right child of `echo hi |` is killed in `execvp(NULL, argv)`, while
a command that cannot be started, as in `nosuchcmd`, ends with status 127. -/
theorem exec_with_redirs_killed_on_empty_side_witness :
    (run_pipeline rightChildEnv demoWorld ["echo", "hi"] [] demoArgv demoArgv).2 =
      .killed SIGSEGV ∧
    newEvents demoWorld
        (run_pipeline rightChildEnv demoWorld ["echo", "hi"] [] demoArgv demoArgv).1 =
      [.pipe 0, .fork 100, .fork 0, .signal_sigint_dfl, .close 4, .dup2 3 0 0, .close 3,
       .execvp none []] ∧
    (exec_with_redirs demoEnv demoWorld [some "nosuchcmd", none] none none 0).2 =
      .exited 127 := by
  have h := (exec_with_redirs_killed_on_empty_side rightChildEnv demoWorld ["echo", "hi"] []
    demoArgv demoArgv rfl (fun _ _ => rfl)).1 (by decide) (by decide) rfl
  exact ⟨h.1, by decide, by decide⟩

end Shell
